import Mathlib

/-!
Verification of the pyanalyzer defect-detection engine.

Shallow embedding of the core components (`ast_parser.py`,
`pattern_matcher.py`, `defect_detector.py`, `base_patterns.py`,
`symbolic_executor.py`) and proofs of the specified properties.
-/

set_option linter.unusedVariables false
set_option linter.unreachableTactic false
set_option linter.unusedTactic false
set_option linter.unnecessarySeqFocus false

/-- Severity levels of a defect (`base_patterns.Severity`). -/
inductive Severity where
  | low
  | medium
  | high
  | critical
deriving DecidableEq, Repr

/-- Numeric severity value (`_get_severity_value` in `defect_detector.py` and
`pattern_matcher.py`: Low=1, Medium=2, High=3, Critical=4). -/
def severityValue : Severity → Nat
  | .low => 1
  | .medium => 2
  | .high => 3
  | .critical => 4

/-- A defect record (`base_patterns.Defect`). -/
structure Defect where
  pattern : String
  description : String
  severity : Severity
  line : Nat
  filePath : String
  context : Option String := none
  suggestion : Option String := none
deriving DecidableEq, Repr

/-- Binary operators of the host language AST (`ast.operator`). -/
inductive BinOpKind where
  | add
  | sub
  | mult
  | div
  | floorDiv
  | mod
  | pow
deriving DecidableEq, Repr

/-- Boolean operators (`ast.boolop`). -/
inductive BoolOpKind where
  | andOp
  | orOp
deriving DecidableEq, Repr

/-- Unary operators (`ast.unaryop`). -/
inductive UnaryOpKind where
  | usub
  | uadd
  | notOp
deriving DecidableEq, Repr

/-- Comparison operators (`ast.cmpop`). -/
inductive CmpOpKind where
  | eq
  | notEq
  | lt
  | ltE
  | gt
  | gtE
  | isOp
  | isNotOp
  | inOp
  | notInOp
deriving DecidableEq, Repr

/-- Expression contexts (`ast.expr_context`). -/
inductive ExprCtx where
  | load
  | store
  | del
deriving DecidableEq, Repr

/-- Constant values (`ast.Constant.value`).  Floats are carried as their
source token text; no claim depends on float arithmetic. -/
inductive PyConst where
  | noneConst
  | boolConst (b : Bool)
  | intConst (n : Int)
  | floatConst (tok : String)
  | strConst (s : String)
deriving DecidableEq, Repr

/-- The host-language syntax tree, embedding the `ast` node kinds the
analyzer dispatches on.  Function arguments are pairs of the argument name
and whether the argument carries a type hint; `returns` and decorator
expressions are carried in already-unparsed form since the analyzer only
ever unparses them. -/
inductive PyAst where
  | module (body : List PyAst)
  | functionDef (name : String) (args : List (String × Bool)) (decorators : List String)
      (body : List PyAst) (returns : Option String) (lineno endLineno : Nat)
  | asyncFunctionDef (name : String) (args : List (String × Bool)) (decorators : List String)
      (body : List PyAst) (returns : Option String) (lineno endLineno : Nat)
  | classDef (name : String) (bases : List String) (body : List PyAst) (lineno : Nat)
  | ifStmt (test : PyAst) (body orelse : List PyAst) (lineno : Nat)
  | whileStmt (test : PyAst) (body orelse : List PyAst) (lineno : Nat)
  | forStmt (target iter : PyAst) (body orelse : List PyAst) (lineno : Nat)
  | asyncForStmt (target iter : PyAst) (body orelse : List PyAst) (lineno : Nat)
  | tryStmt (body handlers orelse finalbody : List PyAst) (lineno : Nat)
  | exceptHandler (body : List PyAst) (lineno : Nat)
  | matchStmt (subject : PyAst) (cases : List PyAst) (lineno : Nat)
  | matchCase (body : List PyAst)
  | withStmt (items : List PyAst) (body : List PyAst) (lineno : Nat)
  | assign (targets : List PyAst) (value : PyAst) (lineno : Nat)
  | ret (value : Option PyAst) (lineno : Nat)
  | exprStmt (value : PyAst) (lineno : Nat)
  | importStmt (names : List String) (lineno : Nat)
  | importFrom (module : String) (names : List String) (level : Nat) (lineno : Nat)
  | binOp (left : PyAst) (op : BinOpKind) (right : PyAst) (lineno : Nat)
  | boolOp (op : BoolOpKind) (values : List PyAst) (lineno : Nat)
  | unaryOp (op : UnaryOpKind) (operand : PyAst) (lineno : Nat)
  | compare (left : PyAst) (ops : List CmpOpKind) (comparators : List PyAst) (lineno : Nat)
  | name (id : String) (ctx : ExprCtx) (lineno : Nat)
  | constant (value : PyConst) (lineno : Nat)
  | attribute (value : PyAst) (attr : String) (ctx : ExprCtx) (lineno : Nat)
  | subscript (value : PyAst) (index : PyAst) (ctx : ExprCtx) (lineno : Nat)
  | call (func : PyAst) (args : List PyAst) (lineno : Nat)
  | tupleExpr (elts : List PyAst) (ctx : ExprCtx) (lineno : Nat)

mutual

/-- All nodes of a subtree, the node itself included (`ast.walk`).
`ast.walk` enumerates breadth-first; this enumeration is depth-first, which
yields the same multiset of nodes, and every property proved below is
insensitive to the enumeration order. -/
def walk : PyAst → List PyAst
  | .module body => .module body :: walkList body
  | .functionDef n a d body r l e => .functionDef n a d body r l e :: walkList body
  | .asyncFunctionDef n a d body r l e => .asyncFunctionDef n a d body r l e :: walkList body
  | .classDef n b body l => .classDef n b body l :: walkList body
  | .ifStmt t body orelse l => .ifStmt t body orelse l :: (walk t ++ walkList body ++ walkList orelse)
  | .whileStmt t body orelse l => .whileStmt t body orelse l :: (walk t ++ walkList body ++ walkList orelse)
  | .forStmt tg it body orelse l =>
      .forStmt tg it body orelse l :: (walk tg ++ walk it ++ walkList body ++ walkList orelse)
  | .asyncForStmt tg it body orelse l =>
      .asyncForStmt tg it body orelse l :: (walk tg ++ walk it ++ walkList body ++ walkList orelse)
  | .tryStmt body handlers orelse finalbody l =>
      .tryStmt body handlers orelse finalbody l ::
        (walkList body ++ walkList handlers ++ walkList orelse ++ walkList finalbody)
  | .exceptHandler body l => .exceptHandler body l :: walkList body
  | .matchStmt s cases l => .matchStmt s cases l :: (walk s ++ walkList cases)
  | .matchCase body => .matchCase body :: walkList body
  | .withStmt items body l => .withStmt items body l :: (walkList items ++ walkList body)
  | .assign targets v l => .assign targets v l :: (walkList targets ++ walk v)
  | .ret (some v) l => .ret (some v) l :: walk v
  | .ret none l => [.ret none l]
  | .exprStmt v l => .exprStmt v l :: walk v
  | .importStmt n l => [.importStmt n l]
  | .importFrom m n lv l => [.importFrom m n lv l]
  | .binOp a op b l => .binOp a op b l :: (walk a ++ walk b)
  | .boolOp op vs l => .boolOp op vs l :: walkList vs
  | .unaryOp op v l => .unaryOp op v l :: walk v
  | .compare a ops bs l => .compare a ops bs l :: (walk a ++ walkList bs)
  | .name i c l => [.name i c l]
  | .constant v l => [.constant v l]
  | .attribute v a c l => .attribute v a c l :: walk v
  | .subscript v i c l => .subscript v i c l :: (walk v ++ walk i)
  | .call f args l => .call f args l :: (walk f ++ walkList args)
  | .tupleExpr elts c l => .tupleExpr elts c l :: walkList elts

/-- Walk of each element of a list of nodes, concatenated. -/
def walkList : List PyAst → List PyAst
  | [] => []
  | t :: ts => walk t ++ walkList ts

end

/-- Rendering of a binary operator token (as `ast.unparse` prints it). -/
def binOpText : BinOpKind → String
  | .add => "+"
  | .sub => "-"
  | .mult => "*"
  | .div => "/"
  | .floorDiv => "//"
  | .mod => "%"
  | .pow => "**"

/-- Rendering of a comparison operator token. -/
def cmpOpText : CmpOpKind → String
  | .eq => "=="
  | .notEq => "!="
  | .lt => "<"
  | .ltE => "<="
  | .gt => ">"
  | .gtE => ">="
  | .isOp => "is"
  | .isNotOp => "is not"
  | .inOp => "in"
  | .notInOp => "not in"

mutual

/-- Source-text rendering of a node (`ast.unparse`), on the expression
fragment the detectors compare against; statements get a best-effort
rendering that no detector inspects beyond storing it as context. -/
def unparse : PyAst → String
  | .name i _ _ => i
  | .constant .noneConst _ => "None"
  | .constant (.boolConst b) _ => if b then "True" else "False"
  | .constant (.intConst n) _ => toString n
  | .constant (.floatConst t) _ => t
  | .constant (.strConst s) _ => "'" ++ s ++ "'"
  | .attribute v a _ _ => unparse v ++ "." ++ a
  | .subscript v i _ _ => unparse v ++ "[" ++ unparse i ++ "]"
  | .call f args _ => unparse f ++ "(" ++ unparseJoin args ++ ")"
  | .binOp a op b _ => unparse a ++ " " ++ binOpText op ++ " " ++ unparse b
  | .boolOp .andOp vs _ => unparseSep " and " vs
  | .boolOp .orOp vs _ => unparseSep " or " vs
  | .unaryOp .usub v _ => "-" ++ unparse v
  | .unaryOp .uadd v _ => "+" ++ unparse v
  | .unaryOp .notOp v _ => "not " ++ unparse v
  | .compare a ops bs _ => unparse a ++ unparseCmpChain ops bs
  | .tupleExpr elts _ _ => "(" ++ unparseJoin elts ++ ")"
  | .assign targets v _ => unparseSep " = " targets ++ " = " ++ unparse v
  | .ret (some v) _ => "return " ++ unparse v
  | .ret none _ => "return"
  | .exprStmt v _ => unparse v
  | .whileStmt t _ _ _ => "while " ++ unparse t ++ ":"
  | .ifStmt t _ _ _ => "if " ++ unparse t ++ ":"
  | .forStmt tg it _ _ _ => "for " ++ unparse tg ++ " in " ++ unparse it ++ ":"
  | .asyncForStmt tg it _ _ _ => "async for " ++ unparse tg ++ " in " ++ unparse it ++ ":"
  | .functionDef n _ _ _ _ _ _ => "def " ++ n ++ "(...):"
  | .asyncFunctionDef n _ _ _ _ _ _ => "async def " ++ n ++ "(...):"
  | .classDef n _ _ _ => "class " ++ n ++ ":"
  | _ => ""

/-- Comma-joined rendering of a list of expressions. -/
def unparseJoin : List PyAst → String
  | [] => ""
  | [x] => unparse x
  | x :: xs => unparse x ++ ", " ++ unparseJoin xs

/-- Rendering of a list of expressions joined by a separator. -/
def unparseSep (sep : String) : List PyAst → String
  | [] => ""
  | [x] => unparse x
  | x :: xs => unparse x ++ sep ++ unparseSep sep xs

/-- Rendering of the operator/comparator chain of a comparison. -/
def unparseCmpChain : List CmpOpKind → List PyAst → String
  | op :: ops, b :: bs => " " ++ cmpOpText op ++ " " ++ unparse b ++ unparseCmpChain ops bs
  | _, _ => ""

end

/-- Python membership test of a substring in a string (the `in` operator on
`str`), via the parts produced by splitting on the pattern. -/
def strContains (s pat : String) : Bool :=
  (s.splitOn pat).length > 1

/-- Extracted description of one function (`ast_parser.FunctionInfo`). -/
structure FunctionInfo where
  name : String
  lineno : Nat
  args : List String
  returns : Option String := none
  docstring : Option String := none
  decorators : List String := []
  body : Option PyAst := none
  complexity : Int := 1

/-- Extracted description of one class (`ast_parser.ClassInfo`). -/
structure ClassInfo where
  name : String
  lineno : Nat
  bases : List String
  methods : List FunctionInfo := []
  attributes : List String := []

/-- An import record (`ASTParser._parse_import` result dict). -/
inductive ImportRecord where
  | direct (names : List String) (lineno : Nat)
  | fromImport (module : String) (names : List String) (level : Nat) (lineno : Nat)
deriving DecidableEq, Repr

/-- Contribution of one walked node to cyclomatic complexity
(`ASTParser._calculate_cyclomatic_complexity`, loop body): `If`, `While`,
`For` and `AsyncFor` add 1, a boolean operation adds (operand count - 1),
`Try` and `ExceptHandler` add 1, a `match` adds its number of cases. -/
def complexityContrib : PyAst → Int
  | .ifStmt _ _ _ _ => 1
  | .whileStmt _ _ _ _ => 1
  | .forStmt _ _ _ _ _ => 1
  | .asyncForStmt _ _ _ _ _ => 1
  | .boolOp _ vs _ => (vs.length : Int) - 1
  | .tryStmt _ _ _ _ _ => 1
  | .exceptHandler _ _ => 1
  | .matchStmt _ cases _ => (cases.length : Int)
  | _ => 0

/-- Cyclomatic complexity of a function node
(`ASTParser._calculate_cyclomatic_complexity`): start at 1, add the
contribution of every node in the subtree walk. -/
def calculateCyclomaticComplexity (node : PyAst) : Int :=
  (walk node).foldl (fun acc n => acc + complexityContrib n) 1

/-- Docstring of a statement list (`ast.get_docstring`): the literal string
value of a leading expression statement, if any. -/
def getDocstring : List PyAst → Option String
  | .exprStmt (.constant (.strConst s) _) _ :: _ => some s
  | _ => none

/-- Extraction of one function definition (`ASTParser._parse_function`);
`self` is the function-definition node itself, stored as the body reference
(the source sets `body=node`, the whole `FunctionDef`). -/
def parseFunction (n : String) (args : List (String × Bool)) (decorators : List String)
    (body : List PyAst) (returns : Option String) (lineno : Nat) (self : PyAst) :
    FunctionInfo :=
  { name := n
    lineno := lineno
    args := args.map Prod.fst
    returns := returns
    docstring := getDocstring body
    decorators := decorators
    body := some self
    complexity := calculateCyclomaticComplexity self }

/-- Extraction of one class definition (`ASTParser._parse_class`). -/
def parseClass (n : String) (bases : List String) (body : List PyAst) (lineno : Nat) :
    ClassInfo :=
  { name := n
    lineno := lineno
    bases := bases
    methods := body.foldl (fun acc item =>
      match item with
      | .functionDef fn fa fd fb fr fl fe =>
          acc ++ [parseFunction fn fa fd fb fr fl (.functionDef fn fa fd fb fr fl fe)]
      | _ => acc) []
    attributes := body.foldl (fun acc item =>
      match item with
      | .assign targets _ _ =>
          acc ++ targets.foldl (fun a t =>
            match t with
            | .name i _ _ => a ++ [i]
            | _ => a) []
      | _ => acc) [] }

/-- Record one assignment line for a variable name in the insertion-ordered
variable table (`self.variables[name].append(lineno)` on a `defaultdict`). -/
def addVarLine (vars : List (String × List Nat)) (n : String) (line : Nat) :
    List (String × List Nat) :=
  if vars.any (fun p => p.1 = n) then
    vars.map (fun p => if p.1 = n then (p.1, p.2 ++ [line]) else p)
  else vars ++ [(n, [line])]

/-- Record the assignment targets of one `Assign` node
(`ASTParser._parse_assignment`): plain `Name` targets and `Name` elements
of `Tuple` targets. -/
def parseAssignmentInto (vars : List (String × List Nat)) (targets : List PyAst)
    (lineno : Nat) : List (String × List Nat) :=
  targets.foldl (fun vs t =>
    match t with
    | .name i _ _ => addVarLine vs i lineno
    | .tupleExpr elts _ _ =>
        elts.foldl (fun vs2 e =>
          match e with
          | .name i _ _ => addVarLine vs2 i lineno
          | _ => vs2) vs
    | _ => vs) vars

/-- The extracted per-file model (`ASTParser` after `_extract_info`). -/
structure ParserState where
  filePath : String
  astTree : PyAst
  functions : List FunctionInfo := []
  classes : List ClassInfo := []
  imports : List ImportRecord := []
  varTable : List (String × List Nat) := []

/-- One step of the extraction loop over the walked tree
(`ASTParser._extract_info`, loop body). -/
def extractStep (st : ParserState) (node : PyAst) : ParserState :=
  match node with
  | .functionDef n a d b r l e =>
      { st with functions :=
          st.functions ++ [parseFunction n a d b r l (.functionDef n a d b r l e)] }
  | .classDef n bs b l =>
      { st with classes := st.classes ++ [parseClass n bs b l] }
  | .importStmt names l =>
      { st with imports := st.imports ++ [.direct names l] }
  | .importFrom m names lv l =>
      { st with imports := st.imports ++ [.fromImport m names lv l] }
  | .assign targets _ l =>
      { st with varTable := parseAssignmentInto st.varTable targets l }
  | _ => st

/-- Extraction of functions, classes, imports and variables from the parsed
tree (`ASTParser._extract_info`). -/
def extractInfo (tree : PyAst) (fp : String) : ParserState :=
  (walk tree).foldl extractStep { filePath := fp, astTree := tree }

/-- Names appearing in load context anywhere in the tree (the `used_vars`
set of `ASTParser.find_unused_variables`). -/
def usedVarNames (tree : PyAst) : List String :=
  (walk tree).filterMap fun n =>
    match n with
    | .name i .load _ => some i
    | _ => none

/-- Variables defined but never read (`ASTParser.find_unused_variables`):
recorded write sites with no load-context occurrence, excluding names
starting with an underscore. -/
def findUnusedVariables (ps : ParserState) : List (String × List Nat) :=
  ps.varTable.filter fun p =>
    !((usedVarNames ps.astTree).contains p.1) && !(p.1.startsWith "_")

/-- Lookup of a function by name (`ASTParser.get_function_by_name`). -/
def getFunctionByName (ps : ParserState) (n : String) : Option FunctionInfo :=
  ps.functions.find? (fun f => f.name == n)

/-- Names recorded for one assignment target, per the recording rules of
`ASTParser._parse_assignment`: a plain name, or the names among the
elements of a tuple target. -/
def targetNameList : PyAst → List String
  | .name i _ _ => [i]
  | .tupleExpr elts _ _ =>
      elts.filterMap (fun e =>
        match e with
        | .name i _ _ => some i
        | _ => none)
  | _ => []

/-- Assignment-target names of a single node, per the recording rules of
`ASTParser._parse_assignment`; used to characterize write sites. -/
def assignTargetNames : PyAst → List String
  | .assign targets _ _ => targets.foldl (fun acc t => acc ++ targetNameList t) []
  | _ => []

/-- All write-site names recorded over the whole tree. -/
def writeSiteNames (tree : PyAst) : List String :=
  (walk tree).foldl (fun acc n => acc ++ assignTargetNames n) []

/-- Null-dereference detector (`BasePatterns.detect_null_dereference`):
flags an attribute access, subscript or call whose dereferenced expression
unparses to the literal text None. -/
def detectNullDereference (node : PyAst) (fp : String) (ps : ParserState) :
    Option (List Defect) :=
  let defects : List Defect :=
    match node with
    | .attribute v a c l =>
        if unparse v = "None" then
          [{ pattern := "null_dereference", description := "访问None对象的属性",
             severity := .high, line := l, filePath := fp,
             context := some (unparse (.attribute v a c l)),
             suggestion := some ("在访问属性前检查 " ++ unparse v ++ " 是否为None") }]
        else []
    | .subscript v i c l =>
        if unparse v = "None" then
          [{ pattern := "null_dereference", description := "访问None对象的元素",
             severity := .high, line := l, filePath := fp,
             context := some (unparse (.subscript v i c l)),
             suggestion := some ("在访问元素前检查 " ++ unparse v ++ " 是否为None") }]
        else []
    | .call f args l =>
        match f with
        | .name i _ _ =>
            if i = "None" then
              [{ pattern := "null_dereference", description := "调用None对象",
                 severity := .high, line := l, filePath := fp,
                 context := some (unparse (.call f args l)),
                 suggestion := some "在调用前检查函数是否为None" }]
            else []
        | _ => []
    | _ => []
  if defects.isEmpty then none else some defects

/-- Resource-leak detector (`BasePatterns.detect_resource_leak`). -/
def detectResourceLeak (node : PyAst) (fp : String) (ps : ParserState) :
    Option (List Defect) :=
  match node with
  | .withStmt _ _ _ => none
  | .call f args l =>
      let funcName :=
        match f with
        | .name i _ _ => i
        | .attribute _ a _ _ => a
        | _ => ""
      if (["open", "connect", "start", "create"] : List String).contains funcName then
        some [{ pattern := "resource_leak",
                description := "可能未正确关闭" ++ funcName ++ "打开的资源",
                severity := .medium, line := l, filePath := fp,
                context := some (unparse (.call f args l)),
                suggestion := some "使用with语句或确保调用close()方法" }]
      else none
  | _ => none

/-- Literal division-by-zero detector (`BasePatterns.detect_division_by_zero`):
flags a `/`, `//` or `%` whose right operand unparses to 0 or 0.0. -/
def detectDivisionByZero (node : PyAst) (fp : String) (ps : ParserState) :
    Option (List Defect) :=
  match node with
  | .binOp a op b l =>
      if op = .div ∨ op = .floorDiv ∨ op = .mod then
        let rightExpr := unparse b
        if rightExpr = "0" ∨ rightExpr = "0.0" then
          some [{ pattern := "division_by_zero", description := "除以零",
                  severity := .high, line := l, filePath := fp,
                  context := some (unparse (.binOp a op b l)),
                  suggestion := some "检查除数是否可能为零" }]
        else none
      else none
  | _ => none

/-- Password-related keywords checked by the hardcoded-password detector. -/
def passwordKeywords : List String :=
  ["password", "passwd", "pwd", "secret", "key",
   "token", "auth", "credential", "apikey", "apisecret"]

/-- Hardcoded-password detector (`BasePatterns.detect_hardcoded_password`).
It reads `getattr(node, 'parent', None)`; nothing in the repository ever
assigns a `parent` attribute to a tree node before detection runs, so the
getattr default None is the value taken here and the assignment branch
never produces a defect. -/
def detectHardcodedPassword (node : PyAst) (fp : String) (ps : ParserState) :
    Option (List Defect) :=
  let defects : List Defect :=
    match node with
    | .constant (.strConst s) l =>
        let parent : Option PyAst := none
        match parent with
        | some (.assign targets v pl) =>
            targets.foldl (fun acc t =>
              match t with
              | .name i _ _ =>
                  if passwordKeywords.any (fun k => strContains i.toLower k) then
                    acc ++ [{ pattern := "hardcoded_password",
                              description := "发现硬编码的密码/密钥",
                              severity := .critical, line := l, filePath := fp,
                              context := some (unparse (.assign targets v pl)),
                              suggestion := some "使用环境变量或配置文件存储敏感信息" }]
                  else acc
              | _ => acc) []
        | _ => []
    | _ => []
  if defects.isEmpty then none else some defects

/-- SQL-injection detector (`BasePatterns.detect_sql_injection`). -/
def detectSqlInjection (node : PyAst) (fp : String) (ps : ParserState) :
    Option (List Defect) :=
  let defects : List Defect :=
    match node with
    | .call f args l =>
        let funcName :=
          match f with
          | .name i _ _ => i
          | .attribute _ a _ _ => a
          | _ => ""
        if (["execute", "executemany", "query", "raw"] : List String).contains funcName then
          args.foldl (fun acc arg =>
            let argStr := unparse arg
            if strContains argStr "+" || strContains argStr "%" || strContains argStr "format(" then
              acc ++ [{ pattern := "sql_injection", description := "潜在的SQL注入漏洞",
                        severity := .critical, line := l, filePath := fp,
                        context := some (unparse (.call f args l)),
                        suggestion := some "使用参数化查询或ORM" }]
            else acc) []
        else []
    | _ => []
  if defects.isEmpty then none else some defects

/-- Infinite-loop detector (`BasePatterns.detect_infinite_loop`). -/
def detectInfiniteLoop (node : PyAst) (fp : String) (ps : ParserState) :
    Option (List Defect) :=
  match node with
  | .whileStmt t body orelse l =>
      let test := unparse t
      if test = "True" ∨ test = "1" then
        some [{ pattern := "potential_loop_infinite", description := "可能无限循环",
                severity := .medium, line := l, filePath := fp,
                context := some (unparse (.whileStmt t body orelse l)),
                suggestion := some "确保循环有终止条件或添加超时机制" }]
      else none
  | _ => none

/-- Missing-type-hint detector (`BasePatterns.detect_missing_type_hints`). -/
def detectMissingTypeHints (node : PyAst) (fp : String) (ps : ParserState) :
    Option (List Defect) :=
  let defects : List Defect :=
    match node with
    | .functionDef n args _ _ returns l _ =>
        (if returns.isNone then
          [{ pattern := "missing_type_hints", description := "函数缺少返回类型注解",
             severity := .low, line := l, filePath := fp, context := some n,
             suggestion := some ("添加返回类型注解: def " ++ n ++ "(...) -> ReturnType:") }]
        else []) ++
        args.foldl (fun acc a =>
          if !a.2 then
            acc ++ [{ pattern := "missing_type_hints",
                      description := "参数'" ++ a.1 ++ "'缺少类型注解",
                      severity := .low, line := l, filePath := fp, context := some n,
                      suggestion := some ("添加类型注解: " ++ a.1 ++ ": Type") }]
          else acc) []
    | _ => []
  if defects.isEmpty then none else some defects

/-- Long-function detector (`BasePatterns.detect_long_function`). -/
def detectLongFunction (node : PyAst) (fp : String) (ps : ParserState)
    (threshold : Int) : Option (List Defect) :=
  match node with
  | .functionDef n _ _ _ _ l e =>
      let length : Int := (e : Int) - (l : Int)
      if length > threshold then
        some [{ pattern := "long_function",
                description := "函数过长 (" ++ toString length ++ "行)",
                severity := .medium, line := l, filePath := fp, context := some n,
                suggestion := some "考虑将函数拆分为更小的函数" }]
      else none
  | _ => none

/-- High-complexity detector (`BasePatterns.detect_high_complexity`). -/
def detectHighComplexity (node : PyAst) (fp : String) (ps : ParserState)
    (threshold : Int) : Option (List Defect) :=
  match node with
  | .functionDef n _ _ _ _ l _ =>
      match getFunctionByName ps n with
      | some f =>
          if f.complexity > threshold then
            some [{ pattern := "high_complexity",
                    description := "函数圈复杂度过高 (" ++ toString f.complexity ++ ")",
                    severity := .medium, line := l, filePath := fp, context := some n,
                    suggestion := some "重构函数以降低复杂度" }]
          else none
      | none => none
  | _ => none

/-- Closed enumeration of the registered base detectors. -/
inductive DetectorTag where
  | nullDereference
  | resourceLeak
  | divisionByZero
  | hardcodedPassword
  | sqlInjection
  | infiniteLoop
  | missingTypeHints
  | longFunction
  | highComplexity
deriving DecidableEq, Repr

/-- Dispatch to one registered base detector; `threshold` is consumed only
by the two threshold-aware detectors, matching the two call arities used
by `DefectDetector._detect_node_defects`. -/
def runDetector (tag : DetectorTag) (node : PyAst) (fp : String) (ps : ParserState)
    (threshold : Int) : Option (List Defect) :=
  match tag with
  | .nullDereference => detectNullDereference node fp ps
  | .resourceLeak => detectResourceLeak node fp ps
  | .divisionByZero => detectDivisionByZero node fp ps
  | .hardcodedPassword => detectHardcodedPassword node fp ps
  | .sqlInjection => detectSqlInjection node fp ps
  | .infiniteLoop => detectInfiniteLoop node fp ps
  | .missingTypeHints => detectMissingTypeHints node fp ps
  | .longFunction => detectLongFunction node fp ps threshold
  | .highComplexity => detectHighComplexity node fp ps threshold

/-- One entry of the base pattern registry. -/
structure BasePattern where
  description : String
  severity : Severity
  tag : DetectorTag
deriving DecidableEq, Repr

/-- The base pattern registry (`base_patterns.PATTERNS`). -/
def PATTERNS : List (String × BasePattern) :=
  [("null_dereference", ⟨"空指针解引用", .high, .nullDereference⟩),
   ("resource_leak", ⟨"资源泄漏", .medium, .resourceLeak⟩),
   ("division_by_zero", ⟨"除以零", .high, .divisionByZero⟩),
   ("hardcoded_password", ⟨"硬编码密码", .critical, .hardcodedPassword⟩),
   ("sql_injection", ⟨"SQL注入漏洞", .critical, .sqlInjection⟩),
   ("potential_loop_infinite", ⟨"可能无限循环", .medium, .infiniteLoop⟩),
   ("missing_type_hints", ⟨"缺少类型注解", .low, .missingTypeHints⟩),
   ("long_function", ⟨"函数过长", .medium, .longFunction⟩),
   ("high_complexity", ⟨"高圈复杂度", .medium, .highComplexity⟩)]

/-- Detector configuration consumed by `DefectDetector`: enabled pattern
ids, numeric thresholds, and the minimum-severity cutoff
(`config["reporting"]["severity_filter"]`, default medium, carried here
already resolved to its `Severity` value). -/
structure DetectorConfig where
  enabled : List String := []
  thresholds : List (String × Int) := []
  severityFilter : Severity := .medium

/-- Threshold lookup with default (`dict.get(key, default)`). -/
def lookupThreshold (l : List (String × Int)) (k : String) (d : Int) : Int :=
  match List.lookup k l with
  | some v => v
  | none => d

/-- Per-node detection loop (`DefectDetector._detect_node_defects`): for
each enabled pattern id present in the base registry, run its detector —
passing the resolved threshold to the two threshold-aware detectors — and
collect the resulting defects. -/
def detectNodeDefects (ps : ParserState) (cfg : DetectorConfig) (node : PyAst) :
    List Defect :=
  cfg.enabled.foldl (fun defects pname =>
    match List.lookup pname PATTERNS with
    | none => defects
    | some pat =>
        let result :=
          if pname = "long_function" || pname = "high_complexity" then
            let threshold :=
              if pname = "long_function" then lookupThreshold cfg.thresholds "function_length" 50
              else lookupThreshold cfg.thresholds "cyclomatic_complexity" 10
            runDetector pat.tag node ps.filePath ps threshold
          else runDetector pat.tag node ps.filePath ps 0
        match result with
        | some ds => if ds.isEmpty then defects else defects ++ ds
        | none => defects) []

/-- Unused-variable defects (`DefectDetector._detect_unused_variables`). -/
def detectUnusedVariablesDefects (ps : ParserState) : List Defect :=
  (findUnusedVariables ps).foldl (fun acc vinfo =>
    acc ++ vinfo.2.map (fun line =>
      { pattern := "unused_variable",
        description := "变量 '" ++ vinfo.1 ++ "' 定义了但未使用",
        severity := .low, line := line, filePath := ps.filePath,
        context := some vinfo.1,
        suggestion := some "删除未使用的变量或添加使用它的代码" })) []

/-- Unused-import defects (`DefectDetector._detect_unused_imports`). -/
def detectUnusedImports (ps : ParserState) : List Defect :=
  let usedNames := usedVarNames ps.astTree
  ps.imports.foldl (fun acc imp =>
    match imp with
    | .direct names lineno =>
        acc ++ names.foldl (fun a nm =>
          if usedNames.contains nm then a
          else
            let actualName := if strContains nm " as " then (nm.splitOn " as ").headD nm else nm
            if usedNames.contains actualName then a
            else a ++ [{ pattern := "unused_import", description := "未使用的导入: " ++ nm,
                         severity := .low, line := lineno, filePath := ps.filePath,
                         context := some nm, suggestion := some "删除未使用的导入" }]) []
    | .fromImport _ names _ lineno =>
        acc ++ names.foldl (fun a nm =>
          if usedNames.contains nm then a
          else a ++ [{ pattern := "unused_import", description := "未使用的导入: " ++ nm,
                       severity := .low, line := lineno, filePath := ps.filePath,
                       context := some nm, suggestion := some "删除未使用的导入" }]) []) []

/-- Severity filtering of a defect list (`DefectDetector.detect_all`, final
list comprehension): keep defects whose severity value is at least the
cutoff value. -/
def filterDefectsBySeverity (defects : List Defect) (minSev : Severity) : List Defect :=
  defects.filter fun d => decide (severityValue minSev ≤ severityValue d.severity)

/-- The full detection pass (`DefectDetector.detect_all`): per-node pattern
detection over the walked tree, the two special unused-variable and
unused-import detections when enabled, then severity filtering. -/
def detectAll (ps : ParserState) (cfg : DetectorConfig) : List Defect :=
  let allDefects := (walk ps.astTree).foldl (fun acc node => acc ++ detectNodeDefects ps cfg node) []
  let allDefects := allDefects ++
    (if cfg.enabled.contains "unused_variable" then detectUnusedVariablesDefects ps else [])
  let allDefects := allDefects ++
    (if cfg.enabled.contains "unused_import" then detectUnusedImports ps else [])
  filterDefectsBySeverity allDefects cfg.severityFilter

/-- Python dict assignment `d[k] = v` on an insertion-ordered association
list: replace the value of an existing key in place, append a new key. -/
def dictInsert {α : Type} (d : List (String × α)) (k : String) (v : α) :
    List (String × α) :=
  if d.any (fun p => p.1 = k) then
    d.map (fun p => if p.1 = k then (k, v) else p)
  else d ++ [(k, v)]

/-- Python `dict.update(other)`: assign every key of `other` in order. -/
def dictUpdate {α : Type} (d other : List (String × α)) : List (String × α) :=
  other.foldl (fun acc p => dictInsert acc p.1 p.2) d

/-- The registry merge of `PatternMatcher._load_patterns`: an empty dict
updated with the basic, security and performance sub-registries in that
order. -/
def loadPatterns {α : Type} (basic security performance : List (String × α)) :
    List (String × α) :=
  dictUpdate (dictUpdate (dictUpdate [] basic) security) performance

/-- Pattern ids of the basic sub-registry (`base_patterns.PATTERNS`). -/
def basePatternIds : List String := PATTERNS.map Prod.fst

/-- Pattern ids of the security sub-registry
(`security_patterns.SECURITY_PATTERNS`). -/
def securityPatternIds : List String :=
  ["unsafe_deserialization", "command_injection", "path_traversal",
   "weak_cryptography", "insecure_random", "potential_xxe"]

/-- Pattern ids of the performance sub-registry
(`performance_patterns.PERFORMANCE_PATTERNS`). -/
def performancePatternIds : List String :=
  ["deep_nested_loops", "string_concat_in_loop", "loop_invariant_code",
   "complex_list_comprehension", "frequent_global_access",
   "inefficient_membership_test", "unnecessary_copy"]

/-- One entry of the merged pattern-matcher registry
(`PatternMatcher.patterns`); the detector is an arbitrary rule function
whose failure (a raised exception) is modeled as an error value.  The
constant `confidence` float of `PatternMatch` is never read and is omitted. -/
structure PMPattern where
  description : String
  severity : Severity
  detector : PyAst → String → ParserState → Except String (List Defect)

/-- A pattern-match result (`pattern_matcher.PatternMatch` with its context
dict: severity, description and the detector result). -/
structure PatternMatch where
  patternName : String
  node : PyAst
  ctxSeverity : Severity
  ctxDescription : String
  detectorResult : List Defect

/-- The value returned by the matching pass: the collected matches, and
whatever diagnostics the pass records about failed detectors.  The except
branch of `PatternMatcher.match_all` executes only `continue`, so nothing
is ever appended to the diagnostics. -/
structure MatchOutcome where
  matchList : List PatternMatch
  diagnostics : List String

/-- One (node, pattern-id) step of the matching loop
(`PatternMatcher.match_all`, inner loop body): skip ids missing from the
registry, invoke the detector, on failure skip the pair recording nothing,
on a non-empty result append one match. -/
def matchAllStep (patterns : List (String × PMPattern)) (ps : ParserState)
    (node : PyAst) (acc : MatchOutcome) (pname : String) : MatchOutcome :=
  match List.lookup pname patterns with
  | none => acc
  | some pat =>
      match pat.detector node ps.filePath ps with
      | .error _ => acc
      | .ok result =>
          if result.isEmpty then acc
          else { acc with matchList :=
                  acc.matchList ++ [⟨pname, node, pat.severity, pat.description, result⟩] }

/-- The matching pass (`PatternMatcher.match_all`): for every walked node,
for every enabled pattern id (all registry ids when none are given), run
the detector and collect matches; detector failures are skipped. -/
def matchAll (patterns : List (String × PMPattern)) (ps : ParserState)
    (enabled : Option (List String)) : MatchOutcome :=
  let enabledList := match enabled with
    | none => patterns.map Prod.fst
    | some l => l
  (walk ps.astTree).foldl (fun acc node =>
    enabledList.foldl (matchAllStep patterns ps node) acc) ⟨[], []⟩

/-- Severity filtering of matches (`PatternMatcher.filter_by_severity`):
keep a match when its pattern is registered and the registered severity
value is at least the cutoff value. -/
def filterBySeverity (patterns : List (String × PMPattern))
    (ms : List PatternMatch) (minSeverity : Severity) : List PatternMatch :=
  ms.filter fun m =>
    match List.lookup m.patternName patterns with
    | some pat => decide (severityValue minSeverity ≤ severityValue pat.severity)
    | none => false

/-- Result of a satisfiability query (`z3.CheckSatResult`). -/
inductive SatResult where
  | sat
  | unsat
  | unknown
deriving DecidableEq, Repr

/-- Solver-level symbolic expressions built by the executor (the fragment
of z3 expressions it constructs). -/
inductive SymExpr where
  | intVar (n : String)
  | realVar (n : String)
  | boolVar (n : String)
  | intLit (n : Int)
  | floatLit (tok : String)
  | boolLit (b : Bool)
  | addE (a b : SymExpr)
  | subE (a b : SymExpr)
  | mulE (a b : SymExpr)
  | divE (a b : SymExpr)
  | eqE (a b : SymExpr)
  | neE (a b : SymExpr)
  | ltE (a b : SymExpr)
  | leE (a b : SymExpr)
  | gtE (a b : SymExpr)
  | geE (a b : SymExpr)
  | andE (a b : SymExpr)
  | orE (a b : SymExpr)
  | notE (a : SymExpr)
  | negE (a : SymExpr)
deriving DecidableEq, Repr

/-- A symbolic variable (`symbolic_executor.SymbolicVariable`). -/
structure SymbolicVariable where
  name : String
  z3Var : SymExpr
  type : String
deriving DecidableEq, Repr

/-- Mutable state of the symbolic executor: the variable table, the
path-constraint stack and the accumulated defects, plus event counters for
push, pop and division-feasibility queries (ghost instrumentation used
only by the statements proved below). -/
structure SymState where
  vars : List (String × SymbolicVariable) := []
  pathConstraints : List SymExpr := []
  defects : List Defect := []
  divQueries : Nat := 0
  pushes : Nat := 0
  pops : Nat := 0
deriving Repr

/-- Python truthiness of a value held by `_parse_expression`: numeric zero
is falsy, every solver expression object is truthy. -/
def symTruthy : SymExpr → Bool
  | .intLit n => n != 0
  | .floatLit t => t != "0.0"
  | .boolLit b => b
  | _ => true

/-- Create a symbolic variable for a name
(`SymbolicExecutor._create_symbolic_variable`). -/
def createSymbolicVariable (st : SymState) (n : String) (ty : String) : SymState :=
  let z3Var :=
    if ty = "int" then SymExpr.intVar n
    else if ty = "float" then SymExpr.realVar n
    else if ty = "bool" then SymExpr.boolVar n
    else SymExpr.intVar n
  { st with vars := dictInsert st.vars n ⟨n, z3Var, ty⟩ }

/-- Push a path constraint (`self.path_constraints.append(...)`). -/
def pushConstraint (st : SymState) (c : SymExpr) : SymState :=
  { st with pathConstraints := st.pathConstraints ++ [c], pushes := st.pushes + 1 }

/-- Pop the topmost path constraint (`self.path_constraints.pop()`). -/
def popConstraint (st : SymState) : SymState :=
  { st with pathConstraints := st.pathConstraints.dropLast, pops := st.pops + 1 }

/-- Division-feasibility query
(`SymbolicExecutor._check_division_by_zero`): in a fresh solver scope,
assert the current path constraints plus divisor == 0; if satisfiable,
emit a high-severity defect at the division's line. -/
def checkDivisionByZero (checkSat : List SymExpr → SatResult) (fp : String)
    (divisor : SymExpr) (line : Nat) (st : SymState) : SymState :=
  let result := checkSat (st.pathConstraints ++ [SymExpr.eqE divisor (.intLit 0)])
  let st := { st with divQueries := st.divQueries + 1 }
  if result = .sat then
    { st with defects := st.defects ++
        [{ pattern := "division_by_zero_symbolic",
           description := "符号执行发现可能的除以零",
           severity := .high, line := line, filePath := fp,
           suggestion := some "添加除数非零检查" }] }
  else st

/-- Every list has positive size under the default size function. -/
def sizeOfListPos {α : Type} [SizeOf α] (l : List α) : 0 < sizeOf l := by
  cases l <;> simp <;> omega

/-- Binary-operator tags have size one. -/
def sizeOfBinOpKindEq (op : BinOpKind) : sizeOf op = 1 := by
  cases op <;> rfl

/-- Boolean-operator tags have size one. -/
def sizeOfBoolOpKindEq (op : BoolOpKind) : sizeOf op = 1 := by
  cases op <;> rfl

/-- Unary-operator tags have size one. -/
def sizeOfUnaryOpKindEq (op : UnaryOpKind) : sizeOf op = 1 := by
  cases op <;> rfl

mutual

/-- Expression evaluation into a solver expression
(`SymbolicExecutor._parse_expression`): numeric literals evaluate to
themselves (Python bools are int instances), known names to their symbolic
variable, operator nodes recursively; anything else is unsupported and
evaluates to nothing. -/
def parseExpression (checkSat : List SymExpr → SatResult) (fp : String)
    (st : SymState) : PyAst → (Option SymExpr × SymState)
  | .constant (.intConst n) _ => (some (.intLit n), st)
  | .constant (.floatConst t) _ => (some (.floatLit t), st)
  | .constant (.boolConst b) _ => (some (.boolLit b), st)
  | .name i _ _ =>
      (match List.lookup i st.vars with
       | some v => (some v.z3Var, st)
       | none => (none, st))
  | .binOp a op b l => analyzeBinaryOperation checkSat fp st a op b l
  | .compare a ops bs _ => analyzeComparison checkSat fp st a ops bs
  | .boolOp op vs _ => analyzeBooleanOperation checkSat fp st op vs
  | .unaryOp op v _ => analyzeUnaryOperation checkSat fp st op v
  | _ => (none, st)
termination_by node => sizeOf node
decreasing_by
all_goals simp_wf
all_goals
  first
    | omega
    | (rename BinOpKind => opk
       have h := sizeOfBinOpKindEq opk
       omega)
    | (rename BoolOpKind => opk
       have h := sizeOfBoolOpKindEq opk
       omega)
    | (rename UnaryOpKind => opk
       have h := sizeOfUnaryOpKindEq opk
       omega)
    | (rename List CmpOpKind => opsk
       have h := sizeOfListPos opsk
       omega)

/-- Binary-operation evaluation
(`SymbolicExecutor._analyze_binary_operation`): evaluate both operands,
give up if either is unsupported; on a division, issue the
division-feasibility query first; unsupported operators yield nothing. -/
def analyzeBinaryOperation (checkSat : List SymExpr → SatResult) (fp : String)
    (st : SymState) (a : PyAst) (op : BinOpKind) (b : PyAst) (lineno : Nat) :
    (Option SymExpr × SymState) :=
  let (left, st) := parseExpression checkSat fp st a
  let (right, st) := parseExpression checkSat fp st b
  match left, right with
  | some l, some r =>
      (match op with
       | .add => (some (.addE l r), st)
       | .sub => (some (.subE l r), st)
       | .mult => (some (.mulE l r), st)
       | .div =>
           let st := checkDivisionByZero checkSat fp r lineno st
           (some (.divE l r), st)
       | _ => (none, st))
  | _, _ => (none, st)
termination_by sizeOf a + sizeOf b + 1
decreasing_by all_goals simp_wf <;> omega

/-- Comparison evaluation (`SymbolicExecutor._analyze_comparison`): only
single-operator comparisons with a supported operator evaluate. -/
def analyzeComparison (checkSat : List SymExpr → SatResult) (fp : String)
    (st : SymState) (a : PyAst) (ops : List CmpOpKind) (bs : List PyAst) :
    (Option SymExpr × SymState) :=
  match ops, bs with
  | [op], [bnode] =>
      let (left, st) := parseExpression checkSat fp st a
      let (right, st) := parseExpression checkSat fp st bnode
      (match left, right with
       | some l, some r =>
           (match op with
            | .eq => (some (.eqE l r), st)
            | .notEq => (some (.neE l r), st)
            | .lt => (some (.ltE l r), st)
            | .ltE => (some (.leE l r), st)
            | .gt => (some (.gtE l r), st)
            | .gtE => (some (.geE l r), st)
            | _ => (none, st))
       | _, _ => (none, st))
  | _, _ => (none, st)
termination_by sizeOf a + sizeOf bs + 1
decreasing_by all_goals simp_wf <;> omega

/-- Boolean-operation evaluation
(`SymbolicExecutor._analyze_boolean_operation`): evaluate all operands,
drop the unsupported ones, fold the rest with the operator; nothing if all
operands were unsupported. -/
def analyzeBooleanOperation (checkSat : List SymExpr → SatResult) (fp : String)
    (st : SymState) (op : BoolOpKind) (vs : List PyAst) :
    (Option SymExpr × SymState) :=
  let (values, st) := parseExpressionList checkSat fp st vs
  let values := values.filterMap id
  match values with
  | [] => (none, st)
  | v0 :: rest =>
      (match op with
       | .andOp => (some (rest.foldl (fun r v => .andE r v) v0), st)
       | .orOp => (some (rest.foldl (fun r v => .orE r v) v0), st))
termination_by sizeOf vs + 1
decreasing_by all_goals simp_wf <;> omega

/-- Unary-operation evaluation
(`SymbolicExecutor._analyze_unary_operation`). -/
def analyzeUnaryOperation (checkSat : List SymExpr → SatResult) (fp : String)
    (st : SymState) (op : UnaryOpKind) (v : PyAst) : (Option SymExpr × SymState) :=
  let (operand, st) := parseExpression checkSat fp st v
  match operand with
  | some o =>
      (match op with
       | .usub => (some (.negE o), st)
       | .notOp => (some (.notE o), st)
       | .uadd => (none, st))
  | none => (none, st)
termination_by sizeOf v + 1
decreasing_by all_goals simp_wf <;> omega

/-- Left-to-right evaluation of a list of expressions (the list
comprehension of `_analyze_boolean_operation`). -/
def parseExpressionList (checkSat : List SymExpr → SatResult) (fp : String)
    (st : SymState) : List PyAst → (List (Option SymExpr) × SymState)
  | [] => ([], st)
  | v :: rest =>
      let (r, st) := parseExpression checkSat fp st v
      let (rs, st) := parseExpressionList checkSat fp st rest
      (r :: rs, st)
termination_by l => sizeOf l
decreasing_by all_goals simp_wf <;> omega

end

mutual

/-- AST traversal (`SymbolicExecutor._traverse_ast`): stop beyond the depth
bound; dispatch only on If, While, Assign, BinOp and Compare nodes — every
other node kind (module and function-definition nodes, return and
expression statements included) is left untouched.  The If handler
(`_analyze_if_statement`) pushes the condition, traverses the then branch,
pops, and does the same with the negated condition for an else branch; the
While handler (`_analyze_while_loop`) traverses only the first three body
statements under the pushed condition; the Assign handler
(`_analyze_assignment`) appends an equality constraint for each known
name target without any matching pop. -/
def traverseAst (checkSat : List SymExpr → SatResult) (fp : String) (maxDepth : Nat)
    (node : PyAst) (depth : Nat) (st : SymState) : SymState :=
  if depth > maxDepth then st
  else
    match node with
    | .ifStmt test body orelse _ =>
        let (condition, st) := parseExpression checkSat fp st test
        (match condition with
         | some c =>
             if symTruthy c then
               let st := pushConstraint st c
               let st := traverseStmtList checkSat fp maxDepth body (depth + 1) st
               let st := popConstraint st
               if !orelse.isEmpty then
                 let st := pushConstraint st (.notE c)
                 let st := traverseStmtList checkSat fp maxDepth orelse (depth + 1) st
                 popConstraint st
               else st
             else st
         | none => st)
    | .whileStmt test body _ _ =>
        let (condition, st) := parseExpression checkSat fp st test
        (match condition with
         | some c =>
             if symTruthy c then
               let st := pushConstraint st c
               let st :=
                 match body with
                 | [] => st
                 | [s1] => traverseAst checkSat fp maxDepth s1 (depth + 1) st
                 | [s1, s2] =>
                     let st := traverseAst checkSat fp maxDepth s1 (depth + 1) st
                     traverseAst checkSat fp maxDepth s2 (depth + 1) st
                 | s1 :: s2 :: s3 :: _ =>
                     let st := traverseAst checkSat fp maxDepth s1 (depth + 1) st
                     let st := traverseAst checkSat fp maxDepth s2 (depth + 1) st
                     traverseAst checkSat fp maxDepth s3 (depth + 1) st
               popConstraint st
             else st
         | none => st)
    | .assign targets value _ =>
        targets.foldl (fun s t =>
          match t with
          | .name i _ _ =>
              let (v, s) := parseExpression checkSat fp s value
              (match v with
               | some ve =>
                   if symTruthy ve then
                     match List.lookup i s.vars with
                     | some sv => pushConstraint s (.eqE sv.z3Var ve)
                     | none => s
                   else s
               | none => s)
          | _ => s) st
    | .binOp a op b l => (analyzeBinaryOperation checkSat fp st a op b l).2
    | .compare a ops bs _ => (analyzeComparison checkSat fp st a ops bs).2
    | _ => st
termination_by sizeOf node
decreasing_by all_goals simp_wf <;> omega

/-- Traversal of each statement of a branch body in order (the `for stmt in
node.body` loops of the If handler). -/
def traverseStmtList (checkSat : List SymExpr → SatResult) (fp : String)
    (maxDepth : Nat) : List PyAst → Nat → SymState → SymState
  | [], _, st => st
  | sNode :: rest, depth, st =>
      let st := traverseAst checkSat fp maxDepth sNode depth st
      traverseStmtList checkSat fp maxDepth rest depth st
termination_by l => sizeOf l
decreasing_by all_goals simp_wf <;> omega

end

/-- Post-traversal path-constraint check
(`SymbolicExecutor._check_path_constraints`): assert every collected
constraint; if unsatisfiable, emit a medium-severity unreachable-code
defect at line 0. -/
def checkPathConstraints (checkSat : List SymExpr → SatResult) (fp : String)
    (st : SymState) : SymState :=
  if checkSat st.pathConstraints = .unsat then
    { st with defects := st.defects ++
        [{ pattern := "unreachable_code", description := "符号执行发现不可达代码",
           severity := .medium, line := 0, filePath := fp,
           suggestion := some "检查逻辑条件是否矛盾" }] }
  else st

/-- The state of a function session just before the post-traversal
path-constraint check (`SymbolicExecutor._analyze_function`, first two
steps): symbolic integer variables for every parameter, then the traversal
of the stored body reference at depth zero. -/
def sessionPreCheckState (checkSat : List SymExpr → SatResult) (fp : String)
    (maxDepth : Nat) (fi : FunctionInfo) (st : SymState) : SymState :=
  let st := fi.args.foldl (fun s a => createSymbolicVariable s a "int") st
  match fi.body with
  | some b => traverseAst checkSat fp maxDepth b 0 st
  | none => st

/-- One full function session (`SymbolicExecutor._analyze_function`):
parameter setup and traversal, the path-constraint check, then the session
reset clearing the variable table, the constraint stack and the solver. -/
def analyzeFunctionSession (checkSat : List SymExpr → SatResult) (fp : String)
    (maxDepth : Nat) (fi : FunctionInfo) (st : SymState) : SymState :=
  let st := sessionPreCheckState checkSat fp maxDepth fi st
  let st := checkPathConstraints checkSat fp st
  { st with vars := [], pathConstraints := [] }

/-- Executor state after analyzing every extracted function that has a
body reference (`SymbolicExecutor.analyze`). -/
def analyzeState (checkSat : List SymExpr → SatResult) (maxDepth : Nat)
    (ps : ParserState) : SymState :=
  ps.functions.foldl (fun st fi =>
    if fi.body.isSome then analyzeFunctionSession checkSat ps.filePath maxDepth fi st
    else st) {}

/-- The defect list returned by `SymbolicExecutor.analyze`. -/
def symbolicAnalyze (checkSat : List SymExpr → SatResult) (maxDepth : Nat)
    (ps : ParserState) : List Defect :=
  (analyzeState checkSat maxDepth ps).defects

/-- The two-parser constructor prologue of `ASTParser.__init__`: the result
of `ast.parse` and, when it succeeded, of `cst.parse_module`, both run
inside one try block. -/
def tryParseSources (astRes : Except String PyAst) (cstRes : Except String Unit) :
    Except String PyAst :=
  match astRes with
  | .error e => .error e
  | .ok t =>
      match cstRes with
      | .error e => .error e
      | .ok _ => .ok t

/-- `ASTParser.__init__`: a syntax error from either parser is caught and
re-raised as a ValueError wrapping the message; only after both parsers
succeed is the extraction run and a parser state produced.  The two parse
results stand for the external parsers, which are outside the core. -/
def astParserInit (fp : String) (astRes : Except String PyAst)
    (cstRes : Except String Unit) : Except String ParserState :=
  match tryParseSources astRes cstRes with
  | .error e => .error ("语法错误: " ++ e)
  | .ok tree => .ok (extractInfo tree fp)

/-- Branch-node predicate exactly as the claim words it: an If, While or
For node (written from the specification text, for comparison with the
code's counting). -/
def isSpecBranchNode : PyAst → Bool
  | .ifStmt _ _ _ _ => true
  | .whileStmt _ _ _ _ => true
  | .forStmt _ _ _ _ _ => true
  | _ => false

/-- Branch-node predicate amended to what the code counts: also an
async-for node. -/
def isSpecBranchNodeAmended : PyAst → Bool
  | .ifStmt _ _ _ _ => true
  | .whileStmt _ _ _ _ => true
  | .forStmt _ _ _ _ _ => true
  | .asyncForStmt _ _ _ _ _ => true
  | _ => false

/-- Try-construct predicate of the claim: a Try node or an except handler. -/
def isTryOrHandler : PyAst → Bool
  | .tryStmt _ _ _ _ _ => true
  | .exceptHandler _ _ => true
  | _ => false

/-- Extra operands beyond the first of a boolean AND/OR chain. -/
def boolOpExtra : PyAst → Int
  | .boolOp _ vs _ => (vs.length : Int) - 1
  | _ => 0

/-- Case-arm count of a match construct. -/
def matchArmCount : PyAst → Int
  | .matchStmt _ cases _ => (cases.length : Int)
  | _ => 0

/-- The complexity formula stated by the claim (written from the
specification text): 1 plus one per If/While/For, one per Try and
except handler, the extra boolean operands, and one per match arm. -/
def specCyclomaticComplexity (node : PyAst) : Int :=
  1 + ((walk node).countP isSpecBranchNode : Int)
    + ((walk node).countP isTryOrHandler : Int)
    + ((walk node).map boolOpExtra).sum
    + ((walk node).map matchArmCount).sum

/-- The claim's complexity formula amended to count async-for nodes like
the other loop nodes, as the code does. -/
def specCyclomaticComplexityAmended (node : PyAst) : Int :=
  1 + ((walk node).countP isSpecBranchNodeAmended : Int)
    + ((walk node).countP isTryOrHandler : Int)
    + ((walk node).map boolOpExtra).sum
    + ((walk node).map matchArmCount).sum

/-- Every boolean-operation node of a parsed tree has at least one operand
(the host parser in fact guarantees at least two). -/
def boolOpNonempty : PyAst → Bool
  | .boolOp _ vs _ => !vs.isEmpty
  | _ => true

/-- The parsed tree of Scenario A, `def f(a,b): return a/b`. -/
def scenarioATree : PyAst :=
  .module [.functionDef "f" [("a", false), ("b", false)] [] 
    [.ret (some (.binOp (.name "a" .load 1) .div (.name "b" .load 1) 1)) 1]
    none 1 1]

/-- The function record the extraction produces for Scenario A. -/
def scenarioAFunctionInfo : FunctionInfo :=
  { name := "f", lineno := 1, args := ["a", "b"], returns := none,
    docstring := none, decorators := [],
    body := some (.functionDef "f" [("a", false), ("b", false)] []
      [.ret (some (.binOp (.name "a" .load 1) .div (.name "b" .load 1) 1)) 1]
      none 1 1),
    complexity := 1 }

/-- The parsed tree of Scenario B, `x = None` then `x.attr`. -/
def scenarioBTree : PyAst :=
  .module [.assign [.name "x" .store 1] (.constant .noneConst 1) 1,
           .exprStmt (.attribute (.name "x" .load 2) "attr" .load 2) 2]

/-- A tree whose dereferenced expression is the literal None:
the statement `None.attr`. -/
def noneAttrTree : PyAst :=
  .module [.exprStmt (.attribute (.constant .noneConst 1) "attr" .load 1) 1]

/-- A function containing an async-for (inside a nested async function,
where the host language allows it): used to compare the code's complexity
count with the claim's formula. -/
def asyncForFunctionNode : PyAst :=
  .functionDef "outer" [] []
    [.asyncFunctionDef "inner" [] []
      [.asyncForStmt (.name "i" .store 3) (.name "xs" .load 3)
        [.exprStmt (.name "i" .load 4) 4] [] 3]
      none 2 4]
    none 1 4

/-- A registry with a detector registered under id foo that always fails,
next to the null-dereference rule (Scenario E's configuration). -/
def cexC4Patterns : List (String × PMPattern) :=
  [("foo", ⟨"always fails", .high, fun _ _ _ => .error "boom"⟩),
   ("null_dereference", ⟨"空指针解引用", .high,
     fun node fp ps => .ok ((detectNullDereference node fp ps).getD [])⟩)]

/-- A concrete match used to exercise the severity filter. -/
def pmWitnessMatch : PatternMatch :=
  ⟨"null_dereference", .constant .noneConst 1, .high, "空指针解引用", []⟩

/-- A concrete one-entry registry used to exercise the severity filter. -/
def pmWitnessPatterns : List (String × PMPattern) :=
  [("null_dereference", ⟨"空指针解引用", .high, fun _ _ _ => .ok []⟩)]

/-- The defect the detection pass produces for the statement None.attr
with only the null-dereference pattern enabled. -/
def noneAttrDefect : Defect :=
  { pattern := "null_dereference", description := "访问None对象的属性",
    severity := .high, line := 1, filePath := "test.py",
    context := some "None.attr",
    suggestion := some "在访问属性前检查 None 是否为None" }

theorem foldl_add_int {α : Type} (f : α → Int) :
    ∀ (l : List α) (a : Int), l.foldl (fun acc x => acc + f x) a = a + (l.map f).sum := by
  intro l
  induction l with
  | nil => intro a; simp
  | cons x xs ih =>
      intro a
      simp [List.foldl_cons, ih (a + f x), List.sum_cons]
      ring

theorem countP_int_eq_sum {α : Type} (p : α → Bool) :
    ∀ (l : List α), ((l.countP p : Nat) : Int) = (l.map (fun x => if p x then (1 : Int) else 0)).sum := by
  intro l
  induction l with
  | nil => simp
  | cons x xs ih =>
      by_cases h : p x = true
      · simp [List.countP_cons, h, ih]
        ring
      · simp [List.countP_cons, h, ih]

theorem sum_map_add_int {α : Type} (f g : α → Int) :
    ∀ (l : List α), (l.map (fun x => f x + g x)).sum = (l.map f).sum + (l.map g).sum := by
  intro l
  induction l with
  | nil => simp
  | cons x xs ih => simp [ih]; ring

theorem complexityContrib_split (n : PyAst) :
    complexityContrib n =
      (if isSpecBranchNodeAmended n then (1 : Int) else 0) +
        ((if isTryOrHandler n then (1 : Int) else 0) + (boolOpExtra n + matchArmCount n)) := by
  cases n <;> simp [complexityContrib, isSpecBranchNodeAmended, isTryOrHandler,
    boolOpExtra, matchArmCount]

/-- C7 (amended): for every function node, the computed cyclomatic
complexity equals 1 plus one increment for each If, While, For or AsyncFor
node, plus one for each Try and each ExceptHandler, plus (operand count -
1) per boolean AND/OR chain, plus one per case arm of each match
construct; and whenever every boolean operation in the subtree has at
least one operand (the host parser guarantees two), the complexity is at
least 1. -/
theorem cyclomatic_complexity_formula (node : PyAst) :
    calculateCyclomaticComplexity node = specCyclomaticComplexityAmended node ∧
      ((walk node).all boolOpNonempty = true → 1 ≤ calculateCyclomaticComplexity node) := by
  constructor
  · unfold calculateCyclomaticComplexity specCyclomaticComplexityAmended
    rw [foldl_add_int]
    rw [countP_int_eq_sum, countP_int_eq_sum]
    have h1 := sum_map_add_int (fun n => if isSpecBranchNodeAmended n then (1 : Int) else 0)
      (fun n => (if isTryOrHandler n then (1 : Int) else 0) + (boolOpExtra n + matchArmCount n))
      (walk node)
    have h2 := sum_map_add_int (fun n => if isTryOrHandler n then (1 : Int) else 0)
      (fun n => boolOpExtra n + matchArmCount n) (walk node)
    have h3 := sum_map_add_int boolOpExtra matchArmCount (walk node)
    have hpt : (walk node).map complexityContrib
        = (walk node).map (fun n =>
            (if isSpecBranchNodeAmended n then (1 : Int) else 0) +
              ((if isTryOrHandler n then (1 : Int) else 0) + (boolOpExtra n + matchArmCount n))) :=
      List.map_congr_left (fun x _ => complexityContrib_split x)
    rw [hpt, h1, h2, h3]
    ring
  · intro hwf
    unfold calculateCyclomaticComplexity
    rw [foldl_add_int]
    have hnn : 0 ≤ ((walk node).map complexityContrib).sum := by
      apply List.sum_nonneg
      intro x hx
      simp only [List.mem_map] at hx
      obtain ⟨y, hy, rfl⟩ := hx
      have hby := List.all_eq_true.mp hwf y hy
      cases y <;> simp [complexityContrib, boolOpNonempty] at hby ⊢
      · rename_i op vs l
        have : vs.length ≠ 0 := by
          intro h0
          exact hby (List.eq_nil_of_length_eq_zero h0)
        omega
    omega

/-- C7 counterexample: on a function containing an async-for, the code
computes complexity 2 while the claim's formula (which counts only If,
While and For) gives 1. -/
theorem cyclomatic_complexity_claim_false :
    specCyclomaticComplexity asyncForFunctionNode ≠ calculateCyclomaticComplexity asyncForFunctionNode ∧
      calculateCyclomaticComplexity asyncForFunctionNode = 2 ∧
      specCyclomaticComplexity asyncForFunctionNode = 1 := by
  decide

/-- C7 witness: the amended formula theorem applied at the async-for
function, with the boolean-operation hypothesis discharged concretely. -/
theorem cyclomatic_complexity_formula_witness :
    (walk asyncForFunctionNode).all boolOpNonempty = true ∧
      1 ≤ calculateCyclomaticComplexity asyncForFunctionNode :=
  ⟨by decide, (cyclomatic_complexity_formula asyncForFunctionNode).2 (by decide)⟩

theorem mem_foldl_append {α β : Type} (f : α → List β) :
    ∀ (l : List α) (init : List β) (x : β),
      x ∈ l.foldl (fun acc a => acc ++ f a) init ↔ x ∈ init ∨ ∃ a ∈ l, x ∈ f a := by
  intro l
  induction l with
  | nil => intro init x; simp
  | cons a rest ih =>
      intro init x
      rw [List.foldl_cons, ih]
      simp [List.mem_append]
      tauto

theorem exists_mem_cons_split {α : Type} (p : α → Prop) (a : α) (l : List α) :
    (∃ x ∈ a :: l, p x) ↔ p a ∨ ∃ x ∈ l, p x := by
  simp

theorem mem_addVarLine_keys (vs : List (String × List Nat)) (n : String) (line : Nat)
    (v : String) :
    v ∈ (addVarLine vs n line).map Prod.fst ↔ v ∈ vs.map Prod.fst ∨ v = n := by
  unfold addVarLine
  by_cases h : vs.any (fun p => p.1 = n) = true
  · simp only [h, if_true, List.map_map]
    have hmap : vs.map (Prod.fst ∘ fun p => if p.1 = n then (p.1, p.2 ++ [line]) else p)
        = vs.map Prod.fst := by
      apply List.map_congr_left
      intro p hp
      by_cases hpn : p.1 = n
      · simp [hpn]
      · simp [hpn]
    rw [hmap]
    constructor
    · intro hv; exact Or.inl hv
    · rintro (hv | rfl)
      · exact hv
      · simp only [List.any_eq_true, decide_eq_true_eq] at h
        obtain ⟨p, hp, hpe⟩ := h
        exact List.mem_map.mpr ⟨p, hp, hpe⟩
  · simp only [h, if_false, List.map_append, List.mem_append, List.map_cons, List.map_nil,
      List.mem_singleton, Bool.false_eq_true]

theorem mem_name_fold_keys (line : Nat) (v : String) :
    ∀ (elts : List PyAst) (vs : List (String × List Nat)),
      v ∈ ((elts.foldl (fun vs2 e =>
          match e with
          | .name i _ _ => addVarLine vs2 i line
          | _ => vs2) vs).map Prod.fst)
        ↔ v ∈ vs.map Prod.fst ∨ v ∈ elts.filterMap (fun e =>
            match e with
            | .name i _ _ => some i
            | _ => none) := by
  intro elts
  induction elts with
  | nil => intro vs; simp
  | cons e rest ih =>
      intro vs
      rw [List.foldl_cons]
      cases e
      all_goals try (rw [ih]; rfl)
      rw [ih, mem_addVarLine_keys]
      rename_i i c ln
      have hfm : (PyAst.name i c ln :: rest).filterMap (fun e =>
          match e with
          | PyAst.name i _ _ => some i
          | _ => none) = i :: rest.filterMap (fun e =>
          match e with
          | PyAst.name i _ _ => some i
          | _ => none) := rfl
      rw [hfm, List.mem_cons]
      tauto

theorem mem_parseAssignmentInto_keys (line : Nat) (v : String) :
    ∀ (targets : List PyAst) (vs : List (String × List Nat)),
      v ∈ (parseAssignmentInto vs targets line).map Prod.fst
        ↔ v ∈ vs.map Prod.fst ∨ ∃ t ∈ targets, v ∈ targetNameList t := by
  intro targets
  induction targets with
  | nil => intro vs; simp [parseAssignmentInto]
  | cons t rest ih =>
      intro vs
      have hstep : parseAssignmentInto vs (t :: rest) line
          = parseAssignmentInto
              (match t with
               | .name i _ _ => addVarLine vs i line
               | .tupleExpr elts _ _ =>
                   elts.foldl (fun vs2 e =>
                     match e with
                     | .name i _ _ => addVarLine vs2 i line
                     | _ => vs2) vs
               | _ => vs) rest line := rfl
      rw [hstep, ih, exists_mem_cons_split]
      cases t
      all_goals try (simp only [targetNameList]; tauto)
      · rw [mem_addVarLine_keys]
        simp only [targetNameList, List.mem_singleton]
        tauto
      · rw [mem_name_fold_keys]
        simp only [targetNameList]
        tauto

theorem mem_extractStep_keys (st : ParserState) (node : PyAst) (v : String) :
    v ∈ ((extractStep st node).varTable.map Prod.fst)
      ↔ v ∈ st.varTable.map Prod.fst ∨ v ∈ assignTargetNames node := by
  cases node <;>
    simp only [extractStep, assignTargetNames, List.not_mem_nil, or_false] <;>
    try rfl
  rename_i targets value l
  rw [mem_parseAssignmentInto_keys, mem_foldl_append]
  simp

theorem mem_extract_fold_keys (v : String) :
    ∀ (l : List PyAst) (st : ParserState),
      v ∈ ((l.foldl extractStep st).varTable.map Prod.fst)
        ↔ v ∈ st.varTable.map Prod.fst ∨ ∃ n ∈ l, v ∈ assignTargetNames n := by
  intro l
  induction l with
  | nil => intro st; simp
  | cons n rest ih =>
      intro st
      rw [List.foldl_cons, ih, mem_extractStep_keys]
      simp
      tauto

theorem mem_writeSiteNames (tree : PyAst) (v : String) :
    v ∈ writeSiteNames tree ↔ ∃ n ∈ walk tree, v ∈ assignTargetNames n := by
  unfold writeSiteNames
  rw [mem_foldl_append]
  simp

theorem extractStep_astTree (st : ParserState) (node : PyAst) :
    (extractStep st node).astTree = st.astTree := by
  cases node <;> rfl

theorem extract_fold_astTree :
    ∀ (l : List PyAst) (st : ParserState), (l.foldl extractStep st).astTree = st.astTree := by
  intro l
  induction l with
  | nil => intro st; rfl
  | cons n rest ih => intro st; rw [List.foldl_cons, ih, extractStep_astTree]

/-- C8: a variable name is reported as unused exactly when it has at least
one recorded write site (an assignment target per the parser's recording
rules), no load-context occurrence anywhere in the tree, and does not
start with the underscore marker. -/
theorem unused_variable_characterization (tree : PyAst) (fp : String) (v : String) :
    v ∈ ((findUnusedVariables (extractInfo tree fp)).map Prod.fst)
      ↔ v ∈ writeSiteNames tree ∧ v ∉ usedVarNames tree ∧ v.startsWith "_" = false := by
  have hast : (extractInfo tree fp).astTree = tree := by
    unfold extractInfo
    rw [extract_fold_astTree]
  have hkeys : ∀ w, w ∈ ((extractInfo tree fp).varTable.map Prod.fst) ↔ w ∈ writeSiteNames tree := by
    intro w
    unfold extractInfo
    rw [mem_extract_fold_keys, mem_writeSiteNames]
    simp
  unfold findUnusedVariables
  rw [hast]
  constructor
  · intro hv
    obtain ⟨pr, hpr, hfst⟩ := List.mem_map.mp hv
    obtain ⟨hmem, hcond⟩ := List.mem_filter.mp hpr
    subst hfst
    simp only [Bool.and_eq_true, Bool.not_eq_true'] at hcond
    refine ⟨(hkeys pr.1).mp (List.mem_map.mpr ⟨pr, hmem, rfl⟩), ?_, hcond.2⟩
    intro habs
    have hcm : (usedVarNames tree).contains pr.1 = true := by
      simp [habs]
    rw [hcond.1] at hcm
    exact Bool.false_ne_true hcm
  · rintro ⟨hw, hnu, hus⟩
    obtain ⟨pr, hmem, hfst⟩ := List.mem_map.mp ((hkeys v).mpr hw)
    refine List.mem_map.mpr ⟨pr, List.mem_filter.mpr ⟨hmem, ?_⟩, hfst⟩
    subst hfst
    simp only [Bool.and_eq_true, Bool.not_eq_true']
    constructor
    · simp [hnu]
    · exact hus

theorem filterBySeverity_pred (patterns : List (String × PMPattern))
    (minSev : Severity) (x : PatternMatch) :
    ((match List.lookup x.patternName patterns with
      | some pat => decide (severityValue minSev ≤ severityValue pat.severity)
      | none => false) = true)
      ↔ ∃ pat, List.lookup x.patternName patterns = some pat ∧
          severityValue minSev ≤ severityValue pat.severity := by
  cases h : List.lookup x.patternName patterns <;> simp [h]

/-- C5: severity filtering keeps exactly the findings whose severity value
(Low=1, Medium=2, High=3, Critical=4) is at least the cutoff, and is
therefore monotone: a higher cutoff selects a subset of a lower one.  The
first two parts cover the matcher's registry-based filter, the last two
the detector's defect filter. -/
theorem severity_filter_characterization
    (patterns : List (String × PMPattern)) (ms : List PatternMatch)
    (c1 c2 : Severity) (m : PatternMatch) (pat : PMPattern)
    (ds : List Defect) (d : Defect) :
    (List.lookup m.patternName patterns = some pat →
      (m ∈ filterBySeverity patterns ms c1 ↔
        m ∈ ms ∧ severityValue c1 ≤ severityValue pat.severity))
    ∧ (severityValue c1 ≤ severityValue c2 →
        ∀ x ∈ filterBySeverity patterns ms c2, x ∈ filterBySeverity patterns ms c1)
    ∧ (d ∈ filterDefectsBySeverity ds c1 ↔
        d ∈ ds ∧ severityValue c1 ≤ severityValue d.severity)
    ∧ (severityValue c1 ≤ severityValue c2 →
        ∀ y ∈ filterDefectsBySeverity ds c2, y ∈ filterDefectsBySeverity ds c1) := by
  refine ⟨?_, ?_, ?_, ?_⟩
  · intro hl
    unfold filterBySeverity
    rw [List.mem_filter, filterBySeverity_pred]
    constructor
    · rintro ⟨hm, p2, hl2, hle2⟩
      rw [hl] at hl2
      injection hl2 with he
      subst he
      exact ⟨hm, hle2⟩
    · rintro ⟨hm, hle1⟩
      exact ⟨hm, pat, hl, hle1⟩
  · intro hle x hx
    unfold filterBySeverity at hx ⊢
    rw [List.mem_filter, filterBySeverity_pred] at hx ⊢
    obtain ⟨hm, p2, hl2, hle2⟩ := hx
    exact ⟨hm, p2, hl2, Nat.le_trans hle hle2⟩
  · unfold filterDefectsBySeverity
    rw [List.mem_filter]
    simp
  · intro hle y hy
    unfold filterDefectsBySeverity at hy ⊢
    rw [List.mem_filter] at hy ⊢
    refine ⟨hy.1, ?_⟩
    have h2 := hy.2
    simp only [decide_eq_true_eq] at h2 ⊢
    omega

/-- C5 witness: the characterization applied to a concrete registry, match
list and cutoff, its lookup hypothesis discharged by computation. -/
theorem severity_filter_characterization_witness :
    pmWitnessMatch ∈ filterBySeverity pmWitnessPatterns [pmWitnessMatch] Severity.medium ↔
      pmWitnessMatch ∈ [pmWitnessMatch] ∧
        severityValue Severity.medium ≤ severityValue Severity.high :=
  (severity_filter_characterization pmWitnessPatterns [pmWitnessMatch]
    Severity.medium Severity.high pmWitnessMatch
    ⟨"空指针解引用", Severity.high, fun _ _ _ => .ok []⟩ [] 
    ⟨"x", "x", Severity.low, 0, "f", none, none⟩).1 rfl

theorem lookup_cons_pair {α : Type} (ka : String) (va : α) (l : List (String × α))
    (k : String) :
    List.lookup k ((ka, va) :: l) = if k = ka then some va else List.lookup k l := by
  cases hb : k == ka
  · have hne : ¬ k = ka := by
      intro h
      subst h
      simp at hb
    simp [List.lookup, hb, hne]
  · have heq : k = ka := eq_of_beq hb
    simp [List.lookup, hb, heq]

theorem lookup_append_pair {α : Type} :
    ∀ (l1 l2 : List (String × α)) (k : String),
      List.lookup k (l1 ++ l2)
        = (List.lookup k l1).orElse (fun _ => List.lookup k l2) := by
  intro l1
  induction l1 with
  | nil => intro l2 k; simp [List.lookup]
  | cons a rest ih =>
      intro l2 k
      rcases a with ⟨ka, va⟩
      rw [List.cons_append, lookup_cons_pair, lookup_cons_pair]
      by_cases hk : k = ka
      · simp [hk, Option.orElse]
      · simp [hk, ih]

theorem lookup_eq_none_of_not_mem_keys {α : Type} :
    ∀ (l : List (String × α)) (k : String), k ∉ l.map Prod.fst → List.lookup k l = none := by
  intro l
  induction l with
  | nil => intro k _; rfl
  | cons a rest ih =>
      intro k hk
      rcases a with ⟨ka, va⟩
      rw [lookup_cons_pair]
      simp only [List.map_cons, List.mem_cons] at hk
      push_neg at hk
      rw [if_neg hk.1]
      exact ih k hk.2

theorem lookup_mem {α : Type} :
    ∀ (l : List (String × α)) (k : String) (v : α),
      List.lookup k l = some v → (k, v) ∈ l := by
  intro l
  induction l with
  | nil => intro k v h; simp [List.lookup] at h
  | cons a rest ih =>
      intro k v h
      rcases a with ⟨ka, va⟩
      rw [lookup_cons_pair] at h
      by_cases hk : k = ka
      · rw [if_pos hk] at h
        injection h with he
        subst hk
        subst he
        exact List.mem_cons_self _ _
      · rw [if_neg hk] at h
        exact List.mem_cons_of_mem _ (ih k v h)

theorem lookup_map_overwrite {α : Type} (k' : String) (v : α) :
    ∀ (d : List (String × α)) (k : String),
      List.lookup k (d.map fun p => if p.1 = k' then (k', v) else p)
        = if k = k' then (if d.any (fun p => p.1 = k') = true then some v else none)
          else List.lookup k d := by
  intro d
  induction d with
  | nil => intro k; by_cases hk : k = k' <;> simp [List.lookup, hk]
  | cons a rest ih =>
      intro k
      rcases a with ⟨ka, va⟩
      by_cases ha : ka = k' <;> by_cases hk : k = k' <;> by_cases hka : k = ka <;>
        simp_all [lookup_cons_pair, List.any_cons, List.map_cons, ih,
          decide_eq_true_eq] <;>
        (try rw [decide_eq_false ha, Bool.false_or])

theorem lookup_dictInsert {α : Type} (d : List (String × α)) (k' : String) (v : α)
    (k : String) :
    List.lookup k (dictInsert d k' v) = if k = k' then some v else List.lookup k d := by
  unfold dictInsert
  by_cases h : d.any (fun p => p.1 = k') = true
  · simp only [h, if_true]
    rw [lookup_map_overwrite, h]
    by_cases hk : k = k' <;> simp [hk]
  · have hcond : (d.any fun p => p.1 = k') = false := Bool.eq_false_iff.mpr h
    simp only [hcond, Bool.false_eq_true, if_false]
    rw [lookup_append_pair]
    by_cases hk : k = k'
    · subst hk
      have hnone : List.lookup k d = none := by
        apply lookup_eq_none_of_not_mem_keys
        intro hmem
        apply h
        obtain ⟨pr, hpr, hfst⟩ := List.mem_map.mp hmem
        exact List.any_eq_true.mpr ⟨pr, hpr, by simp [hfst]⟩
      rw [hnone, lookup_cons_pair, if_pos rfl]
      simp [Option.orElse]
    · rw [if_neg hk, lookup_cons_pair, if_neg hk]
      cases List.lookup k d <;> simp [Option.orElse, List.lookup]

theorem lookup_dictUpdate {α : Type} :
    ∀ (o : List (String × α)), (o.map Prod.fst).Nodup →
      ∀ (d : List (String × α)) (k : String),
        List.lookup k (dictUpdate d o)
          = (List.lookup k o).orElse (fun _ => List.lookup k d) := by
  intro o
  induction o with
  | nil => intro _ d k; simp [dictUpdate, List.lookup, Option.orElse]
  | cons x rest ih =>
      intro hnod d k
      rcases x with ⟨kx, vx⟩
      simp only [List.map_cons, List.nodup_cons] at hnod
      have hstep : dictUpdate d ((kx, vx) :: rest) = dictUpdate (dictInsert d kx vx) rest := rfl
      rw [hstep, ih hnod.2, lookup_cons_pair, lookup_dictInsert]
      by_cases hk : k = kx
      · subst hk
        have : List.lookup k rest = none :=
          lookup_eq_none_of_not_mem_keys rest k hnod.1
        simp [this, Option.orElse]
      · simp only [if_neg hk]

/-- C3 counterexample: with an id duplicated between the basic and the
security sub-registries, the merged registry maps the id to the later
sub-registry's entry — the earlier entry is silently overwritten, and the
merge raises no error at registration time. -/
theorem pattern_merge_claim_false :
    List.lookup "p" (loadPatterns [("p", Severity.low)] [("p", Severity.high)]
        ([] : List (String × Severity))) = some Severity.high
    ∧ List.lookup "p" (loadPatterns [("p", Severity.low)] [("p", Severity.high)]
        ([] : List (String × Severity))) ≠ some Severity.low := by
  decide

/-- C3 (amended): the merge performs dict updates, so an id present in
several sub-registries silently resolves to the entry of the last
sub-registry containing it (performance over security over basic), and no
configuration error is raised — the merge has no error channel; the
repository's three actual sub-registries do have pairwise disjoint ids. -/
theorem pattern_merge_later_wins {α : Type} (b s p : List (String × α)) (k : String)
    (hb : (b.map Prod.fst).Nodup) (hs : (s.map Prod.fst).Nodup)
    (hp : (p.map Prod.fst).Nodup) :
    List.lookup k (loadPatterns b s p)
      = ((List.lookup k p).orElse
          (fun _ => (List.lookup k s).orElse (fun _ => List.lookup k b)))
    ∧ (∀ x ∈ basePatternIds, x ∉ securityPatternIds ∧ x ∉ performancePatternIds)
    ∧ (∀ x ∈ securityPatternIds, x ∉ performancePatternIds) := by
  refine ⟨?_, by decide, by decide⟩
  unfold loadPatterns
  rw [lookup_dictUpdate p hp, lookup_dictUpdate s hs, lookup_dictUpdate b hb]
  cases List.lookup k p <;> cases List.lookup k s <;> cases List.lookup k b <;>
    simp [Option.orElse, List.lookup]

/-- C3 witness: the later-wins merge theorem applied to concrete
sub-registries sharing the id p. -/
theorem pattern_merge_later_wins_witness :
    List.lookup "p" (loadPatterns [("p", Severity.low)] [("p", Severity.high)]
        ([] : List (String × Severity)))
      = ((List.lookup "p" ([] : List (String × Severity))).orElse
          (fun _ => (List.lookup "p" [("p", Severity.high)]).orElse
            (fun _ => List.lookup "p" [("p", Severity.low)]))) :=
  (pattern_merge_later_wins [("p", Severity.low)] [("p", Severity.high)] []
    "p" (by decide) (by decide) (by decide)).1

theorem matchAllStep_diagnostics (patterns : List (String × PMPattern))
    (ps : ParserState) (node : PyAst) (acc : MatchOutcome) (pname : String) :
    (matchAllStep patterns ps node acc pname).diagnostics = acc.diagnostics := by
  unfold matchAllStep
  repeat' split
  all_goals rfl

theorem foldl_matchAllStep_diagnostics (patterns : List (String × PMPattern))
    (ps : ParserState) (node : PyAst) :
    ∀ (l : List String) (acc : MatchOutcome),
      (l.foldl (matchAllStep patterns ps node) acc).diagnostics = acc.diagnostics := by
  intro l
  induction l with
  | nil => intro acc; rfl
  | cons x rest ih =>
      intro acc
      rw [List.foldl_cons, ih, matchAllStep_diagnostics]

theorem matchAll_diagnostics (patterns : List (String × PMPattern))
    (ps : ParserState) (enabled : Option (List String)) :
    (matchAll patterns ps enabled).diagnostics = [] := by
  unfold matchAll
  generalize walk ps.astTree = nodes
  have hfold : ∀ (nodes : List PyAst) (acc : MatchOutcome),
      (nodes.foldl (fun acc node =>
        (match enabled with
         | none => patterns.map Prod.fst
         | some l => l).foldl (matchAllStep patterns ps node) acc) acc).diagnostics
        = acc.diagnostics := by
    intro ns
    induction ns with
    | nil => intro acc; rfl
    | cons n rest ih =>
        intro acc
        rw [List.foldl_cons, ih, foldl_matchAllStep_diagnostics]
  exact hfold nodes ⟨[], []⟩

theorem foldl_matchAllStep_skip (patterns : List (String × PMPattern))
    (ps : ParserState) (node : PyAst) (r : String) (p : PMPattern)
    (hl : List.lookup r patterns = some p)
    (herr : ∀ n, ∃ e, p.detector n ps.filePath ps = Except.error e) :
    ∀ (l : List String) (acc : MatchOutcome),
      l.foldl (matchAllStep patterns ps node) acc
        = (l.filter (fun x => x ≠ r)).foldl (matchAllStep patterns ps node) acc := by
  intro l
  induction l with
  | nil => intro acc; rfl
  | cons x rest ih =>
      intro acc
      by_cases hx : x = r
      · subst hx
        have hstep : matchAllStep patterns ps node acc x = acc := by
          unfold matchAllStep
          rw [hl]
          obtain ⟨e, he⟩ := herr node
          simp [he]
        have hc : decide (x ≠ x) = false := by simp
        simp only [List.filter_cons, hc, Bool.false_eq_true, if_false,
          List.foldl_cons, hstep, ih]
      · have hcond : decide (x ≠ r) = true := by simp [hx]
        simp only [List.filter_cons, hcond, if_true, List.foldl_cons, ih]

theorem matchAll_skip_outcome (patterns : List (String × PMPattern))
    (ps : ParserState) (enabled : List String) (r : String) (p : PMPattern)
    (hl : List.lookup r patterns = some p)
    (herr : ∀ n, ∃ e, p.detector n ps.filePath ps = Except.error e) :
    matchAll patterns ps (some enabled)
      = matchAll patterns ps (some (enabled.filter (fun x => x ≠ r))) := by
  unfold matchAll
  have hfold : ∀ (nodes : List PyAst) (acc : MatchOutcome),
      nodes.foldl (fun acc node => enabled.foldl (matchAllStep patterns ps node) acc) acc
        = nodes.foldl (fun acc node =>
            (enabled.filter (fun x => x ≠ r)).foldl (matchAllStep patterns ps node) acc) acc := by
    intro ns
    induction ns with
    | nil => intro acc; rfl
    | cons n rest ih =>
        intro acc
        rw [List.foldl_cons, List.foldl_cons, foldl_matchAllStep_skip patterns ps n r p hl herr, ih]
  exact hfold (walk ps.astTree) ⟨[], []⟩

/-- C4 (amended): a rule whose detector always fails contributes nothing —
the matching pass returns exactly the matches the remaining enabled rules
produce, in order, and the failure never escapes (the pass is total);
however no diagnostic is recorded for the failing rule: the diagnostics of
every matching pass are empty, because the exception handler only skips. -/
theorem detector_failure_isolation (patterns : List (String × PMPattern))
    (ps : ParserState) (enabled : List String) (r : String) (p : PMPattern)
    (hl : List.lookup r patterns = some p)
    (herr : ∀ n, ∃ e, p.detector n ps.filePath ps = Except.error e) :
    (matchAll patterns ps (some enabled)).matchList
      = (matchAll patterns ps (some (enabled.filter (fun x => x ≠ r)))).matchList
    ∧ (matchAll patterns ps (some enabled)).diagnostics = [] :=
  ⟨congrArg MatchOutcome.matchList (matchAll_skip_outcome patterns ps enabled r p hl herr),
   matchAll_diagnostics patterns ps (some enabled)⟩

/-- C4 counterexample (Scenario E): with a rule foo whose detector always
raises, registered next to the null-dereference rule, the pass still
returns the other rule's match and does not raise — but its diagnostics
are empty: no diagnostic is recorded for foo, contrary to the claim. -/
theorem detector_failure_claim_false :
    ((matchAll cexC4Patterns (extractInfo noneAttrTree "t.py")
        (some ["foo", "null_dereference"])).matchList.map (fun m => m.patternName))
      = ["null_dereference"]
    ∧ (matchAll cexC4Patterns (extractInfo noneAttrTree "t.py")
        (some ["foo", "null_dereference"])).diagnostics = [] :=
  ⟨rfl, rfl⟩

/-- C4 witness: the isolation theorem applied to the concrete registry
with the always-failing rule foo, its hypotheses discharged by
computation. -/
theorem detector_failure_isolation_witness :
    (matchAll cexC4Patterns (extractInfo noneAttrTree "t.py")
        (some ["foo", "null_dereference"])).matchList
      = (matchAll cexC4Patterns (extractInfo noneAttrTree "t.py")
          (some (["foo", "null_dereference"].filter (fun x => x ≠ "foo")))).matchList
    ∧ (matchAll cexC4Patterns (extractInfo noneAttrTree "t.py")
        (some ["foo", "null_dereference"])).diagnostics = [] :=
  detector_failure_isolation cexC4Patterns (extractInfo noneAttrTree "t.py")
    ["foo", "null_dereference"] "foo"
    ⟨"always fails", .high, fun _ _ _ => .error "boom"⟩ rfl
    (fun n => ⟨"boom", rfl⟩)

theorem guard_some {l ds : List Defect}
    (h : (if l.isEmpty then none else some l) = some ds) : ds = l := by
  split_ifs at h
  simp at h
  exact h.symm

theorem mem_foldl_defect_step {α : Type} (P : Defect → Prop)
    (step : List Defect → α → List Defect)
    (hstep : ∀ acc a d, d ∈ step acc a → d ∈ acc ∨ P d) :
    ∀ (l : List α) (acc : List Defect) (d : Defect),
      d ∈ l.foldl step acc → d ∈ acc ∨ P d := by
  intro l
  induction l with
  | nil => intro acc d hd; exact Or.inl hd
  | cons a rest ih =>
      intro acc d hd
      rcases ih (step acc a) d hd with h | h
      · exact hstep acc a d h
      · exact Or.inr h

theorem detectNullDereference_pattern (node : PyAst) (fp : String) (ps : ParserState)
    (ds : List Defect) (d : Defect) (h : detectNullDereference node fp ps = some ds)
    (hd : d ∈ ds) : d.pattern = "null_dereference" := by
  unfold detectNullDereference at h
  cases node <;> try simp at h
  · obtain ⟨hc, hds⟩ := h
    rw [if_pos hc] at hds
    subst hds
    simp only [List.mem_singleton] at hd
    subst hd
    rfl
  · obtain ⟨hc, hds⟩ := h
    rw [if_pos hc] at hds
    subst hds
    simp only [List.mem_singleton] at hd
    subst hd
    rfl
  · rename_i f args l
    obtain ⟨hne, hds⟩ := h
    cases f
    all_goals try (exact (hne (by first | rfl | trivial)).elim)
    rename_i i c ln
    by_cases hi : i = "None"
    · simp only [if_pos hi] at hds
      subst hds
      simp only [List.mem_singleton] at hd
      subst hd
      rfl
    · simp only [if_neg hi] at hne
      exact (hne (by first | rfl | trivial)).elim

theorem detectResourceLeak_pattern (node : PyAst) (fp : String) (ps : ParserState)
    (ds : List Defect) (d : Defect) (h : detectResourceLeak node fp ps = some ds)
    (hd : d ∈ ds) : d.pattern = "resource_leak" := by
  unfold detectResourceLeak at h
  cases node <;> try simp at h
  obtain ⟨hc, hds⟩ := h
  subst hds
  simp only [List.mem_singleton] at hd
  subst hd
  rfl

theorem detectDivisionByZero_pattern (node : PyAst) (fp : String) (ps : ParserState)
    (ds : List Defect) (d : Defect) (h : detectDivisionByZero node fp ps = some ds)
    (hd : d ∈ ds) : d.pattern = "division_by_zero" := by
  unfold detectDivisionByZero at h
  cases node <;> try simp at h
  obtain ⟨hop, hr, hds⟩ := h
  subst hds
  simp only [List.mem_singleton] at hd
  subst hd
  rfl

theorem detectHardcodedPassword_pattern (node : PyAst) (fp : String) (ps : ParserState)
    (ds : List Defect) (d : Defect) (h : detectHardcodedPassword node fp ps = some ds)
    (hd : d ∈ ds) : d.pattern = "hardcoded_password" := by
  unfold detectHardcodedPassword at h
  cases node <;> try simp at h
  rename_i c l
  obtain ⟨hne, _⟩ := h
  cases c <;> exact (hne (by first | rfl | trivial)).elim

theorem detectSqlInjection_pattern (node : PyAst) (fp : String) (ps : ParserState)
    (ds : List Defect) (d : Defect) (h : detectSqlInjection node fp ps = some ds)
    (hd : d ∈ ds) : d.pattern = "sql_injection" := by
  unfold detectSqlInjection at h
  cases node <;> try simp at h
  obtain ⟨⟨hset, hne⟩, hds⟩ := h
  rw [if_pos hset] at hds
  subst hds
  rcases mem_foldl_defect_step (fun d => d.pattern = "sql_injection") _
    (fun acc arg d2 hd2 => by
      split_ifs at hd2
      · rcases List.mem_append.mp hd2 with hx | hx
        · exact Or.inl hx
        · simp only [List.mem_singleton] at hx
          subst hx
          exact Or.inr rfl
      · exact Or.inl hd2) _ [] d hd with hx | hx
  · simp at hx
  · exact hx

theorem detectInfiniteLoop_pattern (node : PyAst) (fp : String) (ps : ParserState)
    (ds : List Defect) (d : Defect) (h : detectInfiniteLoop node fp ps = some ds)
    (hd : d ∈ ds) : d.pattern = "potential_loop_infinite" := by
  unfold detectInfiniteLoop at h
  cases node <;> try simp at h
  obtain ⟨hc, hds⟩ := h
  subst hds
  simp only [List.mem_singleton] at hd
  subst hd
  rfl

theorem detectMissingTypeHints_pattern (node : PyAst) (fp : String) (ps : ParserState)
    (ds : List Defect) (d : Defect) (h : detectMissingTypeHints node fp ps = some ds)
    (hd : d ∈ ds) : d.pattern = "missing_type_hints" := by
  unfold detectMissingTypeHints at h
  cases node <;> try simp at h
  rename_i nm args dec body ret l e
  obtain ⟨_, hds⟩ := h
  subst hds
  rcases List.mem_append.mp hd with hx | hx
  · by_cases hr : ret = none
    · rw [if_pos hr] at hx
      simp only [List.mem_singleton] at hx
      subst hx
      rfl
    · rw [if_neg hr] at hx
      simp at hx
  · rcases mem_foldl_defect_step (fun d => d.pattern = "missing_type_hints") _
      (fun acc a d2 hd2 => by
        split_ifs at hd2
        · rcases List.mem_append.mp hd2 with hy | hy
          · exact Or.inl hy
          · simp only [List.mem_singleton] at hy
            subst hy
            exact Or.inr rfl
        · exact Or.inl hd2) _ [] d hx with hy | hy
    · simp at hy
    · exact hy

theorem detectLongFunction_pattern (node : PyAst) (fp : String) (ps : ParserState)
    (th : Int) (ds : List Defect) (d : Defect)
    (h : detectLongFunction node fp ps th = some ds)
    (hd : d ∈ ds) : d.pattern = "long_function" := by
  unfold detectLongFunction at h
  cases node <;> try simp at h
  obtain ⟨hc, hds⟩ := h
  subst hds
  simp only [List.mem_singleton] at hd
  subst hd
  rfl

theorem detectHighComplexity_pattern (node : PyAst) (fp : String) (ps : ParserState)
    (th : Int) (ds : List Defect) (d : Defect)
    (h : detectHighComplexity node fp ps th = some ds)
    (hd : d ∈ ds) : d.pattern = "high_complexity" := by
  unfold detectHighComplexity at h
  cases node <;> try simp at h
  rename_i nm args dec body ret l e
  cases hgf : getFunctionByName ps nm <;> rw [hgf] at h <;> simp at h
  obtain ⟨hc, hds⟩ := h
  subst hds
  simp only [List.mem_singleton] at hd
  subst hd
  rfl

theorem patterns_entry_pattern (pname : String) (pat : BasePattern)
    (hmem : (pname, pat) ∈ PATTERNS) (node : PyAst) (fp : String) (ps : ParserState)
    (th : Int) (ds : List Defect) (d : Defect)
    (hr : runDetector pat.tag node fp ps th = some ds) (hd : d ∈ ds) :
    d.pattern = pname := by
  simp only [PATTERNS, List.mem_cons, List.not_mem_nil, or_false] at hmem
  rcases hmem with h|h|h|h|h|h|h|h|h
  · injection h with h1 h2
    subst h1; subst h2
    exact detectNullDereference_pattern node fp ps ds d hr hd
  · injection h with h1 h2
    subst h1; subst h2
    exact detectResourceLeak_pattern node fp ps ds d hr hd
  · injection h with h1 h2
    subst h1; subst h2
    exact detectDivisionByZero_pattern node fp ps ds d hr hd
  · injection h with h1 h2
    subst h1; subst h2
    exact detectHardcodedPassword_pattern node fp ps ds d hr hd
  · injection h with h1 h2
    subst h1; subst h2
    exact detectSqlInjection_pattern node fp ps ds d hr hd
  · injection h with h1 h2
    subst h1; subst h2
    exact detectInfiniteLoop_pattern node fp ps ds d hr hd
  · injection h with h1 h2
    subst h1; subst h2
    exact detectMissingTypeHints_pattern node fp ps ds d hr hd
  · injection h with h1 h2
    subst h1; subst h2
    exact detectLongFunction_pattern node fp ps th ds d hr hd
  · injection h with h1 h2
    subst h1; subst h2
    exact detectHighComplexity_pattern node fp ps th ds d hr hd

theorem detectNodeDefects_enabled (ps : ParserState) (cfg : DetectorConfig)
    (node : PyAst) (d : Defect) (hd : d ∈ detectNodeDefects ps cfg node) :
    d.pattern ∈ cfg.enabled := by
  unfold detectNodeDefects at hd
  have hgen : ∀ (l : List String), (∀ x ∈ l, x ∈ cfg.enabled) →
      ∀ (acc : List Defect), (∀ d2 ∈ acc, d2.pattern ∈ cfg.enabled) →
      ∀ d2 ∈ l.foldl (fun defects pname =>
        match List.lookup pname PATTERNS with
        | none => defects
        | some pat =>
            let result :=
              if pname = "long_function" || pname = "high_complexity" then
                let threshold :=
                  if pname = "long_function" then lookupThreshold cfg.thresholds "function_length" 50
                  else lookupThreshold cfg.thresholds "cyclomatic_complexity" 10
                runDetector pat.tag node ps.filePath ps threshold
              else runDetector pat.tag node ps.filePath ps 0
            match result with
            | some ds => if ds.isEmpty then defects else defects ++ ds
            | none => defects) acc, d2.pattern ∈ cfg.enabled := by
    intro l
    induction l with
    | nil => intro _ acc hacc d2 hd2; exact hacc d2 hd2
    | cons x rest ih =>
        intro hsub acc hacc d2 hd2
        rw [List.foldl_cons] at hd2
        refine ih (fun y hy => hsub y (List.mem_cons_of_mem _ hy)) _ ?_ d2 hd2
        intro d3 hd3
        cases hlk : List.lookup x PATTERNS with
        | none => simp only [hlk] at hd3; exact hacc d3 hd3
        | some pat =>
            simp only [hlk] at hd3
            cases hres : (if x = "long_function" || x = "high_complexity" then
                runDetector pat.tag node ps.filePath ps
                  (if x = "long_function" then lookupThreshold cfg.thresholds "function_length" 50
                   else lookupThreshold cfg.thresholds "cyclomatic_complexity" 10)
              else runDetector pat.tag node ps.filePath ps 0) with
            | none => simp only [hres] at hd3; exact hacc d3 hd3
            | some ds =>
                simp only [hres] at hd3
                split_ifs at hd3
                · exact hacc d3 hd3
                · rcases List.mem_append.mp hd3 with hy | hy
                  · exact hacc d3 hy
                  · have hth : ∃ t, runDetector pat.tag node ps.filePath ps t = some ds := by
                      split_ifs at hres <;> exact ⟨_, hres⟩
                    obtain ⟨t, ht⟩ := hth
                    have hp := patterns_entry_pattern x pat (lookup_mem PATTERNS x pat hlk)
                      node ps.filePath ps t ds d3 ht hy
                    rw [hp]
                    exact hsub x (List.mem_cons_self _ _)
  exact hgen cfg.enabled (fun _ hx => hx) [] (by simp) d hd

theorem unusedVarDefects_pattern (ps : ParserState) (d : Defect)
    (hd : d ∈ detectUnusedVariablesDefects ps) : d.pattern = "unused_variable" := by
  unfold detectUnusedVariablesDefects at hd
  rcases mem_foldl_defect_step (fun d => d.pattern = "unused_variable") _
    (fun acc vinfo d2 hd2 => by
      rcases List.mem_append.mp hd2 with hx | hx
      · exact Or.inl hx
      · obtain ⟨line, _, hline⟩ := List.mem_map.mp hx
        right
        rw [← hline]) _ [] d hd with hx | hx
  · simp at hx
  · exact hx

theorem unusedImportDefects_pattern (ps : ParserState) (d : Defect)
    (hd : d ∈ detectUnusedImports ps) : d.pattern = "unused_import" := by
  unfold detectUnusedImports at hd
  rcases mem_foldl_defect_step (fun d => d.pattern = "unused_import") _
    (fun acc imp d2 hd2 => by
      cases imp with
      | direct names lineno =>
          rcases List.mem_append.mp hd2 with hx | hx
          · exact Or.inl hx
          · rcases mem_foldl_defect_step (fun d => d.pattern = "unused_import") _
              (fun a nm d3 hd3 => by
                try dsimp only at hd3
                split_ifs at hd3 <;>
                  first
                    | exact Or.inl hd3
                    | exact (List.mem_append.mp hd3).elim (fun hy => Or.inl hy)
                        (fun hy => Or.inr (by
                          simp only [List.mem_singleton] at hy
                          rw [hy]))) _ [] d2 hx with hy | hy
            · simp at hy
            · exact Or.inr hy
      | fromImport m names lv lineno =>
          rcases List.mem_append.mp hd2 with hx | hx
          · exact Or.inl hx
          · rcases mem_foldl_defect_step (fun d => d.pattern = "unused_import") _
              (fun a nm d3 hd3 => by
                try dsimp only at hd3
                split_ifs at hd3 <;>
                  first
                    | exact Or.inl hd3
                    | exact (List.mem_append.mp hd3).elim (fun hy => Or.inl hy)
                        (fun hy => Or.inr (by
                          simp only [List.mem_singleton] at hy
                          rw [hy]))) _ [] d2 hx with hy | hy
            · simp at hy
            · exact Or.inr hy) _ [] d hd with hx | hx
  · simp at hx
  · exact hx

/-- C6: every defect the detection pass returns carries a pattern id that
is a member of the enabled-pattern set; defects with ids outside that set
never appear. -/
theorem detect_all_only_enabled (ps : ParserState) (cfg : DetectorConfig) (d : Defect)
    (hd : d ∈ detectAll ps cfg) : d.pattern ∈ cfg.enabled := by
  unfold detectAll filterDefectsBySeverity at hd
  have hd1 := (List.mem_filter.mp hd).1
  rcases List.mem_append.mp hd1 with hx | hx
  · rcases List.mem_append.mp hx with hy | hy
    · rcases mem_foldl_defect_step (fun d => d.pattern ∈ cfg.enabled) _
        (fun acc node2 d2 hd2 => by
          rcases List.mem_append.mp hd2 with hz | hz
          · exact Or.inl hz
          · exact Or.inr (detectNodeDefects_enabled ps cfg node2 d2 hz)) _ [] d hy
        with hz | hz
      · simp at hz
      · exact hz
    · by_cases hc : cfg.enabled.contains "unused_variable" = true
      · rw [if_pos hc] at hy
        rw [unusedVarDefects_pattern ps d hy]
        simpa using hc
      · rw [if_neg hc] at hy
        simp at hy
  · by_cases hc : cfg.enabled.contains "unused_import" = true
    · rw [if_pos hc] at hx
      rw [unusedImportDefects_pattern ps d hx]
      simpa using hc
    · rw [if_neg hc] at hx
      simp at hx

/-- C6 witness: the membership theorem applied to the concrete defect the
pass produces for the statement None.attr with only null_dereference
enabled. -/
theorem detect_all_only_enabled_witness :
    noneAttrDefect ∈ detectAll (extractInfo noneAttrTree "test.py")
        { enabled := ["null_dereference"] }
    ∧ noneAttrDefect.pattern ∈ ["null_dereference"] :=
  ⟨by decide,
   detect_all_only_enabled (extractInfo noneAttrTree "test.py")
     { enabled := ["null_dereference"] } noneAttrDefect (by decide)⟩

theorem traverseAst_functionDef (cs : List SymExpr → SatResult) (fp : String)
    (md : Nat) (n : String) (a : List (String × Bool)) (dec : List String)
    (b : List PyAst) (r : Option String) (l e : Nat) (depth : Nat) (st : SymState) :
    traverseAst cs fp md (.functionDef n a dec b r l e) depth st = st := by
  unfold traverseAst
  split <;> rfl

theorem createVars_proj (args : List String) :
    ∀ st : SymState,
      ((args.foldl (fun s a => createSymbolicVariable s a "int") st).pathConstraints
          = st.pathConstraints)
      ∧ ((args.foldl (fun s a => createSymbolicVariable s a "int") st).pushes = st.pushes)
      ∧ ((args.foldl (fun s a => createSymbolicVariable s a "int") st).pops = st.pops)
      ∧ ((args.foldl (fun s a => createSymbolicVariable s a "int") st).defects = st.defects)
      ∧ ((args.foldl (fun s a => createSymbolicVariable s a "int") st).divQueries
          = st.divQueries) := by
  induction args with
  | nil => intro st; exact ⟨rfl, rfl, rfl, rfl, rfl⟩
  | cons a rest ih =>
      intro st
      rw [List.foldl_cons]
      exact ih (createSymbolicVariable st a "int")

theorem extract_functions_bodyShape (tree : PyAst) (fp : String) :
    ∀ fi ∈ (extractInfo tree fp).functions,
      ∃ n a dec b r l e, fi.body = some (PyAst.functionDef n a dec b r l e) := by
  unfold extractInfo
  have hgen : ∀ (l : List PyAst) (st : ParserState),
      (∀ fi ∈ st.functions,
        ∃ n a dec b r ln e, fi.body = some (PyAst.functionDef n a dec b r ln e)) →
      ∀ fi ∈ (l.foldl extractStep st).functions,
        ∃ n a dec b r ln e, fi.body = some (PyAst.functionDef n a dec b r ln e) := by
    intro l
    induction l with
    | nil => intro st h; exact h
    | cons nd rest ih =>
        intro st h
        refine ih _ ?_
        intro fi hfi
        cases nd
        all_goals try exact h fi hfi
        rcases List.mem_append.mp hfi with hx | hx
        · exact h fi hx
        · simp only [List.mem_singleton] at hx
          subst hx
          exact ⟨_, _, _, _, _, _, _, rfl⟩
  exact hgen (walk tree) _ (by simp)

theorem sessionPreCheck_preserves (cs : List SymExpr → SatResult) (fp : String)
    (md : Nat) (fi : FunctionInfo) (st : SymState)
    (hshape : ∃ n a dec b r l e, fi.body = some (PyAst.functionDef n a dec b r l e)) :
    (sessionPreCheckState cs fp md fi st).pathConstraints = st.pathConstraints
    ∧ (sessionPreCheckState cs fp md fi st).pushes = st.pushes
    ∧ (sessionPreCheckState cs fp md fi st).pops = st.pops := by
  obtain ⟨n, a, dec, b, r, l, e, hb⟩ := hshape
  unfold sessionPreCheckState
  rw [hb]
  dsimp only
  rw [traverseAst_functionDef]
  have hc := createVars_proj fi.args st
  exact ⟨hc.1, hc.2.1, hc.2.2.1⟩

theorem checkPathConstraints_proj (cs : List SymExpr → SatResult) (fp : String)
    (st : SymState) :
    (checkPathConstraints cs fp st).pathConstraints = st.pathConstraints
    ∧ (checkPathConstraints cs fp st).pushes = st.pushes
    ∧ (checkPathConstraints cs fp st).pops = st.pops := by
  unfold checkPathConstraints
  split <;> exact ⟨rfl, rfl, rfl⟩

theorem analyze_fold_invariant (cs : List SymExpr → SatResult) (fp2 : String)
    (md : Nat) :
    ∀ (l : List FunctionInfo),
      (∀ fi ∈ l, ∃ n a dec b r ln e, fi.body = some (PyAst.functionDef n a dec b r ln e)) →
      ∀ st : SymState, st.pathConstraints = [] → st.pushes = st.pops →
        ((l.foldl (fun st fi =>
            if fi.body.isSome then analyzeFunctionSession cs fp2 md fi st else st)
            st).pathConstraints = []
         ∧ (l.foldl (fun st fi =>
            if fi.body.isSome then analyzeFunctionSession cs fp2 md fi st else st)
            st).pushes
            = (l.foldl (fun st fi =>
                if fi.body.isSome then analyzeFunctionSession cs fp2 md fi st else st)
                st).pops) := by
  intro l
  induction l with
  | nil => intro _ st h1 h2; exact ⟨h1, h2⟩
  | cons fi rest ih =>
      intro hsh st h1 h2
      rw [List.foldl_cons]
      refine ih (fun g hg => hsh g (List.mem_cons_of_mem _ hg)) _ ?_ ?_
      · by_cases hb : fi.body.isSome = true
        · rw [if_pos hb]; rfl
        · rw [if_neg hb]; exact h1
      · by_cases hb : fi.body.isSome = true
        · rw [if_pos hb]
          have hshape := hsh fi (List.mem_cons_self _ _)
          have hpre := sessionPreCheck_preserves cs fp2 md fi st hshape
          have hchk := checkPathConstraints_proj cs fp2 (sessionPreCheckState cs fp2 md fi st)
          show (checkPathConstraints cs fp2 (sessionPreCheckState cs fp2 md fi st)).pushes
              = (checkPathConstraints cs fp2 (sessionPreCheckState cs fp2 md fi st)).pops
          rw [hchk.2.1, hchk.2.2, hpre.2.1, hpre.2.2]
          exact h2
        · rw [if_neg hb]; exact h2

/-- C2: for every function the extraction produces, the stored body
reference is the whole function-definition node, which the traversal does
not dispatch on — so a session's traversal performs equal numbers of
pushes and pops (in fact none) and leaves the path-constraint stack
exactly as it found it; within a full analysis every session starts with
an empty stack, so the stack is empty when the post-traversal check
begins, and the executor ends every analysis with push count equal to pop
count. -/
theorem constraint_stack_balance (cs : List SymExpr → SatResult) (tree : PyAst)
    (fp : String) (md : Nat) (fi : FunctionInfo) (st : SymState)
    (hfi : fi ∈ (extractInfo tree fp).functions) :
    ((sessionPreCheckState cs fp md fi st).pushes = st.pushes
     ∧ (sessionPreCheckState cs fp md fi st).pops = st.pops
     ∧ (sessionPreCheckState cs fp md fi st).pathConstraints = st.pathConstraints)
    ∧ ((analyzeState cs md (extractInfo tree fp)).pathConstraints = []
       ∧ (analyzeState cs md (extractInfo tree fp)).pushes
           = (analyzeState cs md (extractInfo tree fp)).pops) := by
  have hshape := extract_functions_bodyShape tree fp fi hfi
  have hpre := sessionPreCheck_preserves cs fp md fi st hshape
  refine ⟨⟨hpre.2.1, hpre.2.2, hpre.1⟩, ?_⟩
  unfold analyzeState
  exact analyze_fold_invariant cs (extractInfo tree fp).filePath md
    (extractInfo tree fp).functions (extract_functions_bodyShape tree fp) {} rfl rfl

/-- C2 witness: the balance theorem applied to the Scenario A tree and its
extracted function, with a trivially satisfiable solver. -/
theorem constraint_stack_balance_witness :
    ((sessionPreCheckState (fun _ => SatResult.sat) "test.py" 10
        scenarioAFunctionInfo {}).pushes = ({} : SymState).pushes
     ∧ (sessionPreCheckState (fun _ => SatResult.sat) "test.py" 10
        scenarioAFunctionInfo {}).pops = ({} : SymState).pops
     ∧ (sessionPreCheckState (fun _ => SatResult.sat) "test.py" 10
        scenarioAFunctionInfo {}).pathConstraints = ({} : SymState).pathConstraints)
    ∧ ((analyzeState (fun _ => SatResult.sat) 10
          (extractInfo scenarioATree "test.py")).pathConstraints = []
       ∧ (analyzeState (fun _ => SatResult.sat) 10
            (extractInfo scenarioATree "test.py")).pushes
           = (analyzeState (fun _ => SatResult.sat) 10
               (extractInfo scenarioATree "test.py")).pops) :=
  constraint_stack_balance (fun _ => SatResult.sat) scenarioATree "test.py" 10
    scenarioAFunctionInfo {} (List.Mem.head _)

/-- C1: on Scenario A, `def f(a,b): return a/b`, the executor issues no
division-feasibility query at all and returns an empty defect list
(provided an empty constraint set is not reported unsatisfiable, as by the
real solver): the stored body reference is the whole function-definition
node, which `_traverse_ast` does not dispatch on, and Return statements
have no dispatch case either — the claimed single high-severity defect is
never produced. -/
theorem scenarioA_no_defect (cs : List SymExpr → SatResult)
    (h : cs [] ≠ SatResult.unsat) :
    symbolicAnalyze cs 10 (extractInfo scenarioATree "test.py") = []
    ∧ (analyzeState cs 10 (extractInfo scenarioATree "test.py")).divQueries = 0 := by
  have hstate : analyzeState cs 10 (extractInfo scenarioATree "test.py") = {} := by
    unfold analyzeState
    have hfuncs : (extractInfo scenarioATree "test.py").functions
        = [scenarioAFunctionInfo] := rfl
    rw [hfuncs]
    simp only [List.foldl_cons, List.foldl_nil]
    have hb : scenarioAFunctionInfo.body.isSome = true := rfl
    rw [if_pos hb]
    unfold analyzeFunctionSession
    rw [show (extractInfo scenarioATree "test.py").filePath = "test.py" from rfl]
    have hpre : sessionPreCheckState cs "test.py" 10 scenarioAFunctionInfo {}
        = { vars := [("a", ⟨"a", .intVar "a", "int"⟩), ("b", ⟨"b", .intVar "b", "int"⟩)] } := by
      unfold sessionPreCheckState
      dsimp only [scenarioAFunctionInfo]
      rw [traverseAst_functionDef]
      rfl
    rw [hpre]
    unfold checkPathConstraints
    dsimp only
    rw [if_neg h]
  constructor
  · unfold symbolicAnalyze
    rw [hstate]
  · rw [hstate]

/-- C1 witness: the theorem applied with the always-sat solver. -/
theorem scenarioA_no_defect_witness :
    ((fun _ => SatResult.sat) ([] : List SymExpr) ≠ SatResult.unsat)
    ∧ symbolicAnalyze (fun _ => SatResult.sat) 10 (extractInfo scenarioATree "test.py") = [] :=
  ⟨by decide, (scenarioA_no_defect (fun _ => SatResult.sat) (by decide)).1⟩

/-- C9: on Scenario B, `x = None` then `x.attr`, the detection pass with
only the null-dereference pattern enabled returns NO defect: the detector
compares the unparsed dereferenced expression with the literal text None,
and `x` is not that text, so the assignment of None to x is invisible to
it.  The repository's own test for this scenario expects at least one
defect. -/
theorem null_dereference_scenarioB :
    detectAll (extractInfo scenarioBTree "test.py") { enabled := ["null_dereference"] } = []
    ∧ detectNullDereference (.attribute (.name "x" .load 2) "attr" .load 2) "test.py"
        (extractInfo scenarioBTree "test.py") = none := by
  decide

/-- C10: constructing the parser on source the host parser rejects yields
a ValueError wrapping the syntax-error message, and no parser state with
partially extracted information is ever produced. -/
theorem parser_init_syntax_error (fp e : String) (cstRes : Except String Unit) :
    astParserInit fp (.error e) cstRes = .error ("语法错误: " ++ e)
    ∧ ∀ ps : ParserState, astParserInit fp (.error e) cstRes ≠ .ok ps := by
  constructor
  · rfl
  · intro ps hcontra
    simp [astParserInit, tryParseSources] at hcontra
